import Mathlib

/-!
Verification development for the sense-line reformatter
(src/senseline_reformat_v6.py).  The program is embedded shallowly:
a line of text is a `List Char`, each mechanical pass M0..M16 is a Lean
function on lists of lines, and the regex searches of the source are
hand-translated into explicit position scans with the same backtracking
semantics.  Python `\s`, `\w` and `\d` are modelled by their ASCII
meaning (the corpus processed by the script is plain ASCII text, and
lines never contain a newline because the file driver splits on them).
-/

/-- One sense-line of verse text, as a sequence of characters. -/
abbrev Line := List Char

/-- Characters matched by Python's `\s` (ASCII range). -/
def isPySpace (c : Char) : Bool :=
  c == ' ' || c == '\t' || c == '\n' || c == '\x0b' || c == '\x0c' || c == '\r'

/-- Characters matched by Python's `\w` (ASCII range). -/
def isPyWord (c : Char) : Bool :=
  c.isAlpha || c.isDigit || c == '_'

/-- Letters and digits: the "word content" alphabet used for the
word-preservation invariant. -/
def isWordChar (c : Char) : Bool :=
  c.isAlpha || c.isDigit

/-- The sequence of word characters (letters and digits) of a line. -/
def wordChars (l : Line) : Line := l.filter isWordChar

/-- `prefixAt pat l` holds when `pat` is a literal prefix of `l`. -/
def prefixAt : Line → Line → Bool
  | [], _ => true
  | _ :: _, [] => false
  | p :: ps, c :: cs => p == c && prefixAt ps cs

/-- Case-insensitive prefix test (Python `re.IGNORECASE`). -/
def prefixAtCI : Line → Line → Bool
  | [], _ => true
  | _ :: _, [] => false
  | p :: ps, c :: cs => p.toLower == c.toLower && prefixAtCI ps cs

/-- The literal `pat` occurs in `l` at position `p`. -/
def occursAt (pat : Line) (l : Line) (p : Nat) : Bool :=
  prefixAt pat (l.drop p)

/-- Case-insensitive occurrence at a position. -/
def occursAtCI (pat : Line) (l : Line) (p : Nat) : Bool :=
  prefixAtCI pat (l.drop p)

/-- The character at position `p` is exactly `c`. -/
def chAt (l : Line) (p : Nat) (c : Char) : Bool :=
  occursAt [c] l p

/-- The character at position `p` exists and satisfies `f`. -/
def chSat (l : Line) (p : Nat) (f : Char → Bool) : Bool :=
  decide (p < l.length) && f ((l.drop p).headD ' ')

/-- Length of the whitespace run starting at position `p` (Python's
greedy `\s+` / `\s*` always ends up consuming exactly this run in the
patterns of the source, because every continuation starts with a
non-space character). -/
def wsRunAt (l : Line) (p : Nat) : Nat :=
  ((l.drop p).takeWhile isPySpace).length

/-- Length of the `\w` run starting at position `p`. -/
def wordRunAt (l : Line) (p : Nat) : Nat :=
  ((l.drop p).takeWhile isPyWord).length

/-- Python `str.rstrip()`. -/
def rstripWs (l : Line) : Line :=
  (l.reverse.dropWhile isPySpace).reverse

/-- Python `str.lstrip()`. -/
def lstripWs (l : Line) : Line :=
  l.dropWhile isPySpace

/-- Python `str.strip()`. -/
def stripWs (l : Line) : Line :=
  lstripWs (rstripWs l)

/-- Python `str.rstrip(', ')`, used by M7. -/
def rstripCommaSpace (l : Line) : Line :=
  (l.reverse.dropWhile (fun c => c == ',' || c == ' ')).reverse

/-- The slice `l[a:b]` of Python (for `a ≤ b`; both clipped to the
length, never negative in the places we use it). -/
def pySlice (l : Line) (a b : Nat) : Line :=
  (l.drop a).take (b - a)

/-- Substring containment (`pat in s` of Python). -/
def containsSub (pat : Line) (l : Line) : Bool :=
  (List.range (l.length + 1)).any (fun p => occursAt pat l p)

-- ============================================================
-- Basic facts about the helpers
-- ============================================================

theorem prefixAt_length_le : ∀ pat l : Line, prefixAt pat l = true → pat.length ≤ l.length := by
  intro pat
  induction pat with
  | nil => intro l _; simp
  | cons p ps ih =>
    intro l h
    cases l with
    | nil => simp [prefixAt] at h
    | cons c cs =>
      simp only [prefixAt, Bool.and_eq_true] at h
      have := ih cs h.2
      simpa using Nat.succ_le_succ this

theorem prefixAt_take : ∀ pat l : Line, prefixAt pat l = true → l.take pat.length = pat := by
  intro pat
  induction pat with
  | nil => intro l _; simp
  | cons p ps ih =>
    intro l h
    cases l with
    | nil => simp [prefixAt] at h
    | cons c cs =>
      simp only [prefixAt, Bool.and_eq_true, beq_iff_eq] at h
      simp [List.take, ih cs h.2, h.1]

theorem occursAt_le (pat l : Line) (p : Nat) (hne : pat ≠ [])
    (h : occursAt pat l p = true) : p + pat.length ≤ l.length := by
  have h1 := prefixAt_length_le pat (l.drop p) h
  have hd : (l.drop p).length = l.length - p := by simp
  have h2 : 1 ≤ pat.length := List.length_pos.mpr hne
  omega

theorem occursAt_mem (pat : Line) (c : Char) (l : Line) (p : Nat)
    (hc : c ∈ pat) (h : occursAt pat l p = true) : c ∈ l := by
  have ht := prefixAt_take pat (l.drop p) h
  have : c ∈ l.drop p := by
    rw [← ht] at hc
    exact List.mem_of_mem_take hc
  exact List.mem_of_mem_drop this

-- ============================================================
-- Generic `re.finditer`: leftmost, non-overlapping scan.
-- `f p` returns the length of the (nonempty) match at `p`, if any.
-- Result: list of (start, length) pairs.
-- ============================================================

def finditerAux (f : Nat → Option Nat) : Nat → Nat → List (Nat × Nat)
  | _, 0 => []
  | p, fuel + 1 =>
    match f p with
    | some k => (p, k) :: finditerAux f (p + k) fuel
    | none => finditerAux f (p + 1) fuel

def finditer (f : Nat → Option Nat) (n : Nat) : List (Nat × Nat) :=
  finditerAux f 0 n

-- ============================================================
-- `_best_pos` (senseline_reformat_v6.py:417-429): among the matches,
-- pick the candidate position closest to the line's midpoint, subject
-- to the minimum half-length constraints.  Python compares
-- `abs(pos - len/2)` with exact float arithmetic on these magnitudes,
-- which is the same order as the integer `|2*pos - len|` used here.
-- ============================================================

/-- Twice the distance of `pos` from the midpoint of a line of length
`lineLen`. -/
def centerDist (lineLen pos : Nat) : Nat :=
  ((2 * (pos : Int)) - (lineLen : Int)).natAbs

/-- A candidate split position that satisfies the minimum half-length
constraints of `_best_pos`. -/
def validCand (lineLen minLeft minRight pos : Nat) : Prop :=
  minLeft ≤ pos ∧ minRight ≤ lineLen - pos

instance (lineLen minLeft minRight pos : Nat) :
    Decidable (validCand lineLen minLeft minRight pos) := by
  unfold validCand; infer_instance

def bestPosAux (lineLen minLeft minRight : Nat) (posFn : Nat × Nat → Nat) :
    List (Nat × Nat) → Option (Nat × Nat) → Option Nat
  | [], acc => acc.map (·.1)
  | m :: rest, none =>
    if validCand lineLen minLeft minRight (posFn m) then
      bestPosAux lineLen minLeft minRight posFn rest
        (some (posFn m, centerDist lineLen (posFn m)))
    else bestPosAux lineLen minLeft minRight posFn rest none
  | m :: rest, some (b, bd) =>
    if validCand lineLen minLeft minRight (posFn m) then
      if centerDist lineLen (posFn m) < bd then
        bestPosAux lineLen minLeft minRight posFn rest
          (some (posFn m, centerDist lineLen (posFn m)))
      else
        bestPosAux lineLen minLeft minRight posFn rest (some (b, bd))
    else bestPosAux lineLen minLeft minRight posFn rest (some (b, bd))

/-- `_best_pos(line, matches, pos_fn, min_left, min_right)`. -/
def bestPos (lineLen : Nat) (ms : List (Nat × Nat)) (posFn : Nat × Nat → Nat)
    (minLeft minRight : Nat) : Option Nat :=
  bestPosAux lineLen minLeft minRight posFn ms none

theorem bestPosAux_spec (lineLen mL mR : Nat) (posFn : Nat × Nat → Nat) :
    ∀ (ms : List (Nat × Nat)) (acc : Option (Nat × Nat)) (p : Nat),
      (∀ b bd, acc = some (b, bd) → bd = centerDist lineLen b ∧ validCand lineLen mL mR b) →
      bestPosAux lineLen mL mR posFn ms acc = some p →
      validCand lineLen mL mR p ∧
      (p ∈ ms.map posFn ∨ (∃ bd, acc = some (p, bd))) ∧
      (∀ m ∈ ms, validCand lineLen mL mR (posFn m) →
        centerDist lineLen p ≤ centerDist lineLen (posFn m)) ∧
      (∀ b bd, acc = some (b, bd) → centerDist lineLen p ≤ bd) := by
  intro ms
  induction ms with
  | nil =>
    intro acc p hacc h
    cases acc with
    | none => simp [bestPosAux] at h
    | some x =>
      obtain ⟨b, bd⟩ := x
      simp [bestPosAux] at h
      subst h
      obtain ⟨h1, h2⟩ := hacc b bd rfl
      refine ⟨h2, ?_, ?_, ?_⟩
      · right; exact ⟨bd, rfl⟩
      · intro m hm; simp at hm
      · intro b' bd' he
        cases he
        omega
  | cons m rest ih =>
    intro acc p hacc h
    by_cases hv : validCand lineLen mL mR (posFn m)
    · cases acc with
      | none =>
        rw [bestPosAux, if_pos hv] at h
        have hacc' : ∀ b bd, (some (posFn m, centerDist lineLen (posFn m)) : Option (Nat × Nat)) = some (b, bd) →
            bd = centerDist lineLen b ∧ validCand lineLen mL mR b := by
          intro b bd he
          cases he
          exact ⟨rfl, hv⟩
        obtain ⟨c1, c2, c3, c4⟩ := ih _ p hacc' h
        refine ⟨c1, ?_, ?_, ?_⟩
        · rcases c2 with h2 | ⟨bd, he⟩
          · left; simp [h2]
          · cases he
            left; simp
        · intro m' hm' hv'
          rcases List.mem_cons.mp hm' with rfl | hmem
          · exact c4 _ _ rfl
          · exact c3 _ hmem hv'
        · intro b bd he; cases he
      | some x =>
        obtain ⟨b, bd⟩ := x
        obtain ⟨hbd, hbv⟩ := hacc b bd rfl
        rw [bestPosAux, if_pos hv] at h
        by_cases hlt : centerDist lineLen (posFn m) < bd
        · rw [if_pos hlt] at h
          have hacc' : ∀ b' bd', (some (posFn m, centerDist lineLen (posFn m)) : Option (Nat × Nat)) = some (b', bd') →
              bd' = centerDist lineLen b' ∧ validCand lineLen mL mR b' := by
            intro b' bd' he; cases he; exact ⟨rfl, hv⟩
          obtain ⟨c1, c2, c3, c4⟩ := ih _ p hacc' h
          refine ⟨c1, ?_, ?_, ?_⟩
          · rcases c2 with h2 | ⟨bd', he⟩
            · left; simp [h2]
            · cases he
              left; simp
          · intro m' hm' hv'
            rcases List.mem_cons.mp hm' with rfl | hmem
            · exact c4 _ _ rfl
            · exact c3 _ hmem hv'
          · intro b' bd' he
            cases he
            have := c4 _ _ rfl
            omega
        · rw [if_neg hlt] at h
          have hacc' : ∀ b' bd', (some (b, bd) : Option (Nat × Nat)) = some (b', bd') →
              bd' = centerDist lineLen b' ∧ validCand lineLen mL mR b' := by
            intro b' bd' he; cases he; exact ⟨hbd, hbv⟩
          obtain ⟨c1, c2, c3, c4⟩ := ih _ p hacc' h
          refine ⟨c1, ?_, ?_, ?_⟩
          · rcases c2 with h2 | ⟨bd', he⟩
            · left; simp [h2]
            · cases he
              right; exact ⟨bd, rfl⟩
          · intro m' hm' hv'
            rcases List.mem_cons.mp hm' with rfl | hmem
            · have := c4 _ _ rfl
              omega
            · exact c3 _ hmem hv'
          · intro b' bd' he
            cases he
            exact c4 _ _ rfl
    · have hstep : bestPosAux lineLen mL mR posFn (m :: rest) acc =
          bestPosAux lineLen mL mR posFn rest acc := by
        cases acc with
        | none => rw [bestPosAux, if_neg hv]
        | some x =>
          obtain ⟨b, bd⟩ := x
          rw [bestPosAux, if_neg hv]
      rw [hstep] at h
      obtain ⟨c1, c2, c3, c4⟩ := ih _ p hacc h
      refine ⟨c1, ?_, ?_, c4⟩
      · rcases c2 with h2 | he
        · left; simp [h2]
        · right; exact he
      · intro m' hm' hv'
        rcases List.mem_cons.mp hm' with rfl | hmem
        · exact absurd hv' hv
        · exact c3 _ hmem hv'

/-- Main specification of `_best_pos`: a returned position comes from
the match list, satisfies both half-length minimums, and has minimal
midpoint distance among the valid candidates. -/
theorem bestPos_spec (lineLen : Nat) (ms : List (Nat × Nat)) (posFn : Nat × Nat → Nat)
    (mL mR p : Nat) (h : bestPos lineLen ms posFn mL mR = some p) :
    mL ≤ p ∧ mR ≤ lineLen - p ∧ p ∈ ms.map posFn ∧
      (∀ m ∈ ms, mL ≤ posFn m → mR ≤ lineLen - posFn m →
        centerDist lineLen p ≤ centerDist lineLen (posFn m)) := by
  obtain ⟨c1, c2, c3, c4⟩ := bestPosAux_spec lineLen mL mR posFn ms none p (by intro b bd h; cases h) h
  refine ⟨c1.1, c1.2, ?_, ?_⟩
  · rcases c2 with h2 | ⟨bd, he⟩
    · exact h2
    · cases he
  · intro m hm h1 h2
    exact c3 m hm ⟨h1, h2⟩

-- ============================================================
-- M10 pattern registry (BREAK_PATTERNS_COMMA / BREAK_PATTERNS_NOCOMMA,
-- senseline_reformat_v6.py:91-135) and `_find_long_line_break` (432-476).
-- ============================================================

/-- Matcher for the pattern `:\s`. -/
def colonWsMatchAt (line : Line) (p : Nat) : Option Nat :=
  if chAt line p ':' && chSat line (p + 1) isPySpace then some 2 else none

/-- Matcher for the pattern `;\s`. -/
def semiWsMatchAt (line : Line) (p : Nat) : Option Nat :=
  if chAt line p ';' && chSat line (p + 1) isPySpace then some 2 else none

/-- Matcher for the pattern `--`. -/
def dashDashMatchAt (line : Line) (p : Nat) : Option Nat :=
  if occursAt ("--".toList) line p then some 2 else none

/-- The words of the `,\s+(word\s)` break patterns, in registry order. -/
def commaBreakWords : List Line :=
  ["and", "that", "which", "but", "for", "because", "even", "save", "unto", "upon",
   "from", "in", "to", "or", "nor", "neither", "until", "after", "before", "lest",
   "saith", "according"].map String.toList

/-- Matcher for a `,\s+(word\s)` pattern: a comma, the full greedy
whitespace run, the word, one more whitespace character. -/
def commaWordMatchAt (w : Line) (line : Line) (p : Nat) : Option Nat :=
  if chAt line p ',' then
    if 1 ≤ wsRunAt line (p + 1) && occursAt w line (p + 1 + wsRunAt line (p + 1)) &&
        chSat line (p + 1 + wsRunAt line (p + 1) + w.length) isPySpace then
      some (1 + wsRunAt line (p + 1) + w.length + 1)
    else none
  else none

/-- The comma-based pattern family of `BREAK_PATTERNS_COMMA`, in order,
paired with the break type (`true` = 'after', `false` = 'before_word'). -/
def commaPatMatchers (line : Line) : List ((Nat → Option Nat) × Bool) :=
  (colonWsMatchAt line, true) :: (semiWsMatchAt line, true) :: (dashDashMatchAt line, true) ::
    commaBreakWords.map (fun w => (commaWordMatchAt w line, false))

/-- First pattern whose `_best_pos` over its `finditer` matches yields a
position (the `for pat, btype in BREAK_PATTERNS_COMMA` loop). -/
def firstPatBreak (lineLen : Nat) : List ((Nat → Option Nat) × Bool) → Option Nat
  | [] => none
  | (f, isAfter) :: rest =>
    match bestPos lineLen (finditer f lineLen)
        (fun m => if isAfter then m.1 + m.2 else m.1 + 1) 18 15 with
    | some pos => some pos
    | none => firstPatBreak lineLen rest

/-- `CONTENT_AFTER_THAT` (senseline_reformat_v6.py:73-78). -/
def contentAfterThat : List Line :=
  ["he ", "she ", "they ", "ye ", "I ", "we ", "it ",
   "the ", "a ", "an ", "as ", "there ", "this ", "those ",
   "when ", "if ", "in ", "all ", "my ", "his ", "her ", "our ",
   "your ", "thy ", "their ", "no ", "not ", "from "].map String.toList

/-- Matcher for the bare-that pattern `(?<!,)\s(that\s)`. -/
def bareThatMatchAt (line : Line) (p : Nat) : Option Nat :=
  if chSat line p isPySpace && (decide (p = 0) || !(chAt line (p - 1) ',')) &&
      occursAt ("that".toList) line (p + 1) && chSat line (p + 5) isPySpace then
    some 6
  else none

/-- The bare-that matches whose continuation starts with a clause
starter from `CONTENT_AFTER_THAT` (the `valid = [...]` filter). -/
def bareThatValid (line : Line) : List (Nat × Nat) :=
  (finditer (bareThatMatchAt line) line.length).filter
    (fun m => contentAfterThat.any (fun s => occursAt s line (m.1 + m.2)))

/-- The phrases of `BREAK_PATTERNS_NOCOMMA`, in registry order. -/
def nocommaPhrases : List Line :=
  ["unto the", "upon the", "from the", "into the", "in the", "by the", "among the",
   "among all", "before the", "after the", "against the", "concerning", "down to",
   "out of", "save it be"].map String.toList

/-- Matcher for a `\s+(phrase\s)` pattern: the whole whitespace run,
the phrase, one more whitespace character. -/
def nocommaMatchAt (phrase : Line) (line : Line) (p : Nat) : Option Nat :=
  if chSat line p isPySpace then
    if occursAt phrase line (p + wsRunAt line p) &&
        chSat line (p + wsRunAt line p + phrase.length) isPySpace then
      some (wsRunAt line p + phrase.length + 1)
    else none
  else none

def nocommaMatchers (line : Line) : List ((Nat → Option Nat) × Bool) :=
  nocommaPhrases.map (fun w => (nocommaMatchAt w line, false))

/-- Matcher for the fallback pattern `,\s+`. -/
def commaWsMatchAt (line : Line) (p : Nat) : Option Nat :=
  if chAt line p ',' && chSat line (p + 1) isPySpace then
    some (1 + wsRunAt line (p + 1))
  else none

/-- `_find_long_line_break(line, threshold)` (senseline_reformat_v6.py:432-476). -/
def findLongLineBreak (line : Line) (threshold : Nat) : Option Nat :=
  if line.length ≤ threshold then none
  else
    match firstPatBreak line.length (commaPatMatchers line) with
    | some pos => some pos
    | none =>
      match bestPos line.length (bareThatValid line) (fun m => m.1 + 1) 18 15 with
      | some pos => some pos
      | none =>
        if 75 < line.length then
          match firstPatBreak line.length (nocommaMatchers line) with
          | some pos => some pos
          | none =>
            bestPos line.length (finditer (commaWsMatchAt line) line.length)
              (fun m => m.1 + 1) 18 15
        else none

theorem firstPatBreak_bounds (lineLen : Nat) :
    ∀ (pats : List ((Nat → Option Nat) × Bool)) (pos : Nat),
      firstPatBreak lineLen pats = some pos → 18 ≤ pos ∧ 15 ≤ lineLen - pos := by
  intro pats
  induction pats with
  | nil => intro pos h; simp [firstPatBreak] at h
  | cons fp rest ih =>
    intro pos h
    obtain ⟨f, isAfter⟩ := fp
    cases hb : bestPos lineLen (finditer f lineLen)
        (fun m => if isAfter then m.1 + m.2 else m.1 + 1) 18 15 with
    | some q =>
      simp only [firstPatBreak, hb] at h
      cases h
      exact ⟨(bestPos_spec lineLen _ _ 18 15 _ hb).1,
             (bestPos_spec lineLen _ _ 18 15 _ hb).2.1⟩
    | none =>
      simp only [firstPatBreak, hb] at h
      exact ih pos h

/-- Every position returned by `_find_long_line_break` went through
`_best_pos` with the default minimums 18 and 15. -/
theorem findLongLineBreak_bounds (line : Line) (threshold pos : Nat)
    (h : findLongLineBreak line threshold = some pos) :
    18 ≤ pos ∧ pos + 15 ≤ line.length := by
  unfold findLongLineBreak at h
  by_cases hl : line.length ≤ threshold
  · rw [if_pos hl] at h; cases h
  · rw [if_neg hl] at h
    cases h1 : firstPatBreak line.length (commaPatMatchers line) with
    | some q =>
      rw [h1] at h; cases h
      have := firstPatBreak_bounds line.length _ pos h1
      omega
    | none =>
      rw [h1] at h
      cases h2 : bestPos line.length (bareThatValid line) (fun m => m.1 + 1) 18 15 with
      | some q =>
        rw [h2] at h; cases h
        have := bestPos_spec line.length _ _ 18 15 pos h2
        omega
      | none =>
        rw [h2] at h
        by_cases h75 : 75 < line.length
        · rw [if_pos h75] at h
          cases h3 : firstPatBreak line.length (nocommaMatchers line) with
          | some q =>
            rw [h3] at h; cases h
            have := firstPatBreak_bounds line.length _ pos h3
            omega
          | none =>
            rw [h3] at h
            have := bestPos_spec line.length _ _ 18 15 pos h
            omega
        · rw [if_neg h75] at h; cases h

theorem dropWhile_len_le (p : Char → Bool) : ∀ l : Line, (l.dropWhile p).length ≤ l.length := by
  intro l
  induction l with
  | nil => simp
  | cons c cs ih =>
    by_cases h : p c
    · simp only [List.dropWhile_cons, h, if_true]
      simp
      omega
    · simp [List.dropWhile_cons, h]

theorem rstripWs_length_le (l : Line) : (rstripWs l).length ≤ l.length := by
  unfold rstripWs
  calc (l.reverse.dropWhile isPySpace).reverse.length
      = (l.reverse.dropWhile isPySpace).length := by simp
    _ ≤ l.reverse.length := dropWhile_len_le _ _
    _ = l.length := by simp

theorem lstripWs_length_le (l : Line) : (lstripWs l).length ≤ l.length := by
  unfold lstripWs
  exact dropWhile_len_le _ _

/-- Measure for the recursion in `m10_split_long`. -/
def m10Measure (lines : List Line) : Nat := (lines.map (fun l => l.length + 1)).sum

/-- `m10_split_long(lines, threshold)` (senseline_reformat_v6.py:479-497):
split each over-threshold line at the found break position, re-submitting
each fragment that is still over threshold. -/
def m10_split_long (lines : List Line) (threshold : Nat) : List Line :=
  match lines with
  | [] => []
  | line :: rest =>
    (if line.length ≤ threshold then [line]
     else
       match hb : findLongLineBreak line threshold with
       | none => [line]
       | some pos =>
         (if (rstripWs (line.take pos)).length > threshold
          then m10_split_long [rstripWs (line.take pos)] threshold
          else [rstripWs (line.take pos)]) ++
         (if (lstripWs (line.drop pos)).length > threshold
          then m10_split_long [lstripWs (line.drop pos)] threshold
          else [lstripWs (line.drop pos)])) ++
    m10_split_long rest threshold
termination_by m10Measure lines
decreasing_by
  · have hbb := findLongLineBreak_bounds line threshold pos hb
    have h1 : (rstripWs (line.take pos)).length ≤ pos := by
      have := rstripWs_length_le (line.take pos)
      have h2 : (line.take pos).length ≤ pos := by simp
      omega
    simp only [m10Measure, List.map_cons, List.sum_cons, List.map_nil, List.sum_nil]
    omega
  · have hbb := findLongLineBreak_bounds line threshold pos hb
    have h1 : (lstripWs (line.drop pos)).length ≤ line.length - pos := by
      have := lstripWs_length_le (line.drop pos)
      have h2 : (line.drop pos).length = line.length - pos := by simp
      omega
    simp only [m10Measure, List.map_cons, List.sum_cons, List.map_nil, List.sum_nil]
    omega
  · simp only [m10Measure, List.map_cons, List.sum_cons]
    omega

theorem m10_nil (threshold : Nat) : m10_split_long [] threshold = [] := by
  rw [m10_split_long]

theorem m10_short (l : Line) (threshold : Nat) (h : l.length ≤ threshold) :
    m10_split_long [l] threshold = [l] := by
  rw [m10_split_long]
  simp [h, m10_nil]

-- ============================================================
-- Claim C1
-- ============================================================

/-- C1: the recursive long-line splitter M10 terminates on every input
line: whenever `_find_long_line_break` returns a split position for a
line, that position is at least 18 characters from the start and at
least 15 characters from the end, so the left fragment
`line[:pos].rstrip()` and the right fragment `line[pos:].lstrip()` are
each strictly shorter than the original line; and a fragment at or
below the threshold is returned as-is, never re-submitted.  The
recursion in the Lean definition `m10_split_long` is justified by
exactly this shrink invariant. -/
theorem c1_m10_shrink (line : Line) (threshold pos : Nat)
    (h : findLongLineBreak line threshold = some pos) :
    (18 ≤ pos ∧ pos + 15 ≤ line.length) ∧
    (rstripWs (line.take pos)).length < line.length ∧
    (lstripWs (line.drop pos)).length < line.length ∧
    (∀ l : Line, l.length ≤ threshold → m10_split_long [l] threshold = [l]) := by
  have hb := findLongLineBreak_bounds line threshold pos h
  refine ⟨hb, ?_, ?_, ?_⟩
  · have h1 := rstripWs_length_le (line.take pos)
    have h2 : (line.take pos).length ≤ pos := by simp
    omega
  · have h1 := lstripWs_length_le (line.drop pos)
    have h2 : (line.drop pos).length = line.length - pos := by simp
    omega
  · intro l hl
    exact m10_short l threshold hl

/-- Concrete 77-character line split by the first pattern family. -/
def c1line : Line :=
  ("aaaaaaaaaaaaaaaaaaaaaaaaaaaaaaaaaaaaaaaa: bbbbbbbbbbbbbbbbbbbbbbbbbbbbbbbbbbb").toList

theorem c1_m10_shrink_witness :
    (18 ≤ 42 ∧ 42 + 15 ≤ c1line.length) ∧
    (rstripWs (c1line.take 42)).length < c1line.length ∧
    (lstripWs (c1line.drop 42)).length < c1line.length ∧
    m10_split_long ["short".toList] 70 = ["short".toList] :=
  ⟨(c1_m10_shrink c1line 70 42 (by decide)).1,
   (c1_m10_shrink c1line 70 42 (by decide)).2.1,
   (c1_m10_shrink c1line 70 42 (by decide)).2.2.1,
   (c1_m10_shrink c1line 70 42 (by decide)).2.2.2 _ (by decide)⟩

-- ============================================================
-- Claim C3
-- ============================================================

/-- C3: in M10, the split position chosen by `_best_pos` (with the
default minimums `min_left=18`, `min_right=15` used by every call in
`_find_long_line_break`) is a candidate position whose left part is at
least 18 characters and whose right part is at least 15 characters,
and among all candidates satisfying those minimums it is closest to
the line's midpoint; candidates violating the minimums are never
chosen. -/
theorem c3_best_pos_closest (lineLen : Nat) (ms : List (Nat × Nat))
    (posFn : Nat × Nat → Nat) (p : Nat)
    (h : bestPos lineLen ms posFn 18 15 = some p) :
    p ∈ ms.map posFn ∧ 18 ≤ p ∧ 15 ≤ lineLen - p ∧
      ∀ m ∈ ms, 18 ≤ posFn m → 15 ≤ lineLen - posFn m →
        centerDist lineLen p ≤ centerDist lineLen (posFn m) := by
  obtain ⟨h1, h2, h3, h4⟩ := bestPos_spec lineLen ms posFn 18 15 p h
  exact ⟨h3, h1, h2, h4⟩

/-- Concrete candidate list: positions 11 (too close to the start),
41 (valid) and 75 (too close to the end of an 80-character line). -/
def c3ms : List (Nat × Nat) := [(10, 2), (40, 2), (74, 2)]

theorem c3_best_pos_closest_witness :
    41 ∈ c3ms.map (fun m => m.1 + 1) ∧ 18 ≤ 41 ∧ 15 ≤ 80 - 41 ∧
      centerDist 80 41 ≤ centerDist 80 41 :=
  ⟨(c3_best_pos_closest 80 c3ms (fun m => m.1 + 1) 41 (by decide)).1,
   (c3_best_pos_closest 80 c3ms (fun m => m.1 + 1) 41 (by decide)).2.1,
   (c3_best_pos_closest 80 c3ms (fun m => m.1 + 1) 41 (by decide)).2.2.1,
   (c3_best_pos_closest 80 c3ms (fun m => m.1 + 1) 41 (by decide)).2.2.2
     (40, 2) (by decide) (by decide) (by decide)⟩

-- ============================================================
-- Occurrence lemmas used for the M8 idempotence argument
-- ============================================================

theorem prefixAt_of_take (pat : Line) :
    ∀ (X : Line) (k : Nat), prefixAt pat (X.take k) = true → prefixAt pat X = true := by
  induction pat with
  | nil => intro X k _; rfl
  | cons p ps ih =>
    intro X k h
    cases X with
    | nil => simp at h; simp [prefixAt] at h
    | cons c cs =>
      cases k with
      | zero => simp [prefixAt] at h
      | succ k =>
        simp only [List.take, prefixAt, Bool.and_eq_true] at h ⊢
        exact ⟨h.1, ih cs k h.2⟩

theorem occursAt_of_take (pat l : Line) (n p : Nat) (hne : pat ≠ [])
    (h : occursAt pat (l.take n) p = true) :
    occursAt pat l p = true ∧ p + pat.length ≤ n := by
  unfold occursAt at h
  rw [List.drop_take] at h
  constructor
  · exact prefixAt_of_take pat (l.drop p) (n - p) h
  · have h1 := prefixAt_length_le pat _ h
    have h2 : ((l.drop p).take (n - p)).length ≤ n - p := by simp
    have h3 : 1 ≤ pat.length := List.length_pos.mpr hne
    omega

theorem occursAt_of_drop (pat l : Line) (m q : Nat)
    (h : occursAt pat (l.drop m) q = true) : occursAt pat l (m + q) = true := by
  unfold occursAt at h ⊢
  rw [List.drop_drop] at h
  exact h

-- ============================================================
-- M8: ", and [subject pronoun]" split (senseline_reformat_v6.py:344-362)
-- ============================================================

/-- Number of positions at which `", and "` occurs (`re.findall(r', and ', line)`
counts non-overlapping occurrences, but this pattern cannot overlap itself,
so the two counts coincide). -/
def countCommaAnd (line : Line) : Nat :=
  ((Finset.range line.length).filter (fun p => occursAt (", and ".toList) line p = true)).card

def andPronounWords : List Line :=
  ["I ", "he ", "she ", "they ", "we ", "ye ", "it ", "thou "].map String.toList

/-- One match position of `_AND_PRONOUN_PAT = r', and (I |he |she |they |we |ye |it |thou )'`. -/
def andPronounMatchAt (line : Line) (p : Nat) : Bool :=
  occursAt (", and ".toList) line p &&
    andPronounWords.any (fun w => occursAt w line (p + 6))

/-- `_AND_PRONOUN_PAT.search(line)`: start of the leftmost match. -/
def m8FindMatch (line : Line) : Option Nat :=
  (List.range line.length).find? (andPronounMatchAt line)

/-- Per-line body of the M8 loop. -/
def m8Line (line : Line) : List Line :=
  if 45 ≤ line.length ∧ line.length ≤ 70 then
    if 2 ≤ countCommaAnd line then [line]
    else
      match m8FindMatch line with
      | some p =>
        if 18 ≤ p ∧ 18 ≤ line.length - p - 1 then
          [line.take (p + 1), line.drop (p + 2)]
        else [line]
      | none => [line]
  else [line]

/-- `m8_and_pronoun(lines)`. -/
def m8_and_pronoun (lines : List Line) : List Line :=
  (lines.map m8Line).flatten

theorem countCommaAnd_two (line : Line) (p q : Nat) (hne : p ≠ q)
    (hp : occursAt (", and ".toList) line p = true)
    (hq : occursAt (", and ".toList) line q = true) :
    2 ≤ countCommaAnd line := by
  unfold countCommaAnd
  have hplen := occursAt_le _ line p (by decide) hp
  have hqlen := occursAt_le _ line q (by decide) hq
  have hpm : p ∈ (Finset.range line.length).filter
      (fun r => occursAt (", and ".toList) line r = true) := by
    rw [Finset.mem_filter, Finset.mem_range]
    refine ⟨?_, hp⟩
    have : (", and ".toList).length = 6 := by decide
    omega
  have hqm : q ∈ (Finset.range line.length).filter
      (fun r => occursAt (", and ".toList) line r = true) := by
    rw [Finset.mem_filter, Finset.mem_range]
    refine ⟨?_, hq⟩
    have : (", and ".toList).length = 6 := by decide
    omega
  have : 1 < ((Finset.range line.length).filter
      (fun r => occursAt (", and ".toList) line r = true)).card :=
    Finset.one_lt_card.mpr ⟨p, hpm, q, hqm, hne⟩
  omega

theorem m8FindMatch_occurs (line : Line) (p : Nat) (h : m8FindMatch line = some p) :
    occursAt (", and ".toList) line p = true := by
  unfold m8FindMatch at h
  have := List.find?_some h
  exact ((Bool.and_eq_true _ _).mp this).1

theorem m8FindMatch_none_of_no_occ (A : Line)
    (h : ∀ q, occursAt (", and ".toList) A q = true → False) : m8FindMatch A = none := by
  unfold m8FindMatch
  rw [List.find?_eq_none]
  intro q _ hq
  unfold andPronounMatchAt at hq
  exact h q ((Bool.and_eq_true _ _).mp hq).1

theorem m8Line_eq_of_none (A : Line) (h : m8FindMatch A = none) : m8Line A = [A] := by
  unfold m8Line
  split
  · split
    · rfl
    · rw [h]
  · rfl

theorem m8_single (L : Line) : m8_and_pronoun [L] = m8Line L := by
  simp [m8_and_pronoun]

theorem m8_pair (A B : Line) : m8_and_pronoun [A, B] = m8Line A ++ m8Line B := by
  simp [m8_and_pronoun]

-- ============================================================
-- M12: "in [gerund]" split (senseline_reformat_v6.py:531-543)
-- ============================================================

/-- Full-match condition of `_IN_GERUND_PAT = r'^(.{15,}?)\s+(in\s+\w+ing\b.+)$'`
at prefix length `a`: a whitespace run, the literal `in`, another
whitespace run, a word run of length at least 4 ending in `ing`
(this is how `\w+ing\b` resolves against a maximal `\w` run), and at
least one character after it (`.+`). -/
def m12CondAt (line : Line) (a : Nat) : Bool :=
  15 ≤ a && 1 ≤ wsRunAt line a &&
  occursAt ("in".toList) line (a + wsRunAt line a) &&
  1 ≤ wsRunAt line (a + wsRunAt line a + 2) &&
  (let w := a + wsRunAt line a + 2 + wsRunAt line (a + wsRunAt line a + 2)
   4 ≤ wordRunAt line w &&
   occursAt ("ing".toList) line (w + wordRunAt line w - 3) &&
   decide (w + wordRunAt line w < line.length))

/-- `_IN_GERUND_PAT.match(line)`: the lazy `.{15,}?` yields the smallest
matching prefix length. -/
def m12Match (line : Line) : Option Nat :=
  (List.range line.length).find? (m12CondAt line)

/-- Per-line body of the M12 loop, including the `len(m.group(2)) >= 10`
check. -/
def m12Line (line : Line) : List Line :=
  match m12Match line with
  | some a =>
    if 10 ≤ line.length - (a + wsRunAt line a) then
      [line.take a, line.drop (a + wsRunAt line a)]
    else [line]
  | none => [line]

/-- `m12_in_gerund(lines)`. -/
def m12_in_gerund (lines : List Line) : List Line :=
  (lines.map m12Line).flatten

-- ============================================================
-- Claim C2
-- ============================================================

/-- Line on which M12 splits once, and splits its own output again. -/
def c2line : Line := "aaaa bbbb ccccc in walking about in talking more".toList

/-- C2 counterexample: not every pass is idempotent.  M12 applied to
the single-line list `[c2line]` yields two lines, and applying M12
again splits the second output line once more, so
`P(P([L])) ≠ P([L])` for the pass `P = m12_in_gerund`. -/
theorem c2_counterexample :
    m12_in_gerund (m12_in_gerund [c2line]) ≠ m12_in_gerund [c2line] := by decide

/-- C2 (amended): idempotence does not hold for every pass (M12 is a
counterexample), but it does hold for M8 on single-line lists: after an
M8 split the single `", and "` occurrence that licensed the split is
consumed, so neither fragment can match `_AND_PRONOUN_PAT` again. -/
theorem c2_m8_idempotent (L : Line) :
    m8_and_pronoun (m8_and_pronoun [L]) = m8_and_pronoun [L] := by
  rw [m8_single]
  by_cases hl : 45 ≤ L.length ∧ L.length ≤ 70
  · by_cases hc : 2 ≤ countCommaAnd L
    · have h1 : m8Line L = [L] := by unfold m8Line; rw [if_pos hl, if_pos hc]
      rw [h1, m8_single, h1]
    · cases hm : m8FindMatch L with
      | none =>
        have h1 : m8Line L = [L] := m8Line_eq_of_none L hm
        rw [h1, m8_single, h1]
      | some p =>
        by_cases hg : 18 ≤ p ∧ 18 ≤ L.length - p - 1
        · have hsplit : m8Line L = [L.take (p + 1), L.drop (p + 2)] := by
            unfold m8Line; rw [if_pos hl, if_neg hc, hm]; simp [hg]
          rw [hsplit, m8_pair]
          have hpL : occursAt (", and ".toList) L p = true := m8FindMatch_occurs L p hm
          have hA : m8FindMatch (L.take (p + 1)) = none := by
            apply m8FindMatch_none_of_no_occ
            intro q hq
            obtain ⟨hqL, hqle⟩ := occursAt_of_take _ L (p + 1) q (by decide) hq
            have hlen : ((", and ".toList) : Line).length = 6 := by decide
            have hne : q ≠ p := by omega
            exact hc (countCommaAnd_two L q p hne hqL hpL)
          have hB : m8FindMatch (L.drop (p + 2)) = none := by
            apply m8FindMatch_none_of_no_occ
            intro q hq
            have hqL := occursAt_of_drop _ L (p + 2) q hq
            have hne : p + 2 + q ≠ p := by omega
            exact hc (countCommaAnd_two L (p + 2 + q) p hne hqL hpL)
          rw [m8Line_eq_of_none _ hA, m8Line_eq_of_none _ hB]
          rfl
        · have h1 : m8Line L = [L] := by
            unfold m8Line; rw [if_pos hl, if_neg hc, hm]; simp [hg]
          rw [h1, m8_single, h1]
  · have h1 : m8Line L = [L] := by unfold m8Line; rw [if_neg hl]
    rw [h1, m8_single, h1]

-- ============================================================
-- Claim C4
-- ============================================================

/-- C4: triad protection for M8 — a line containing two or more
occurrences of `", and "` is returned unchanged by `m8_and_pronoun`. -/
theorem c4_m8_triad (line : Line) (h : 2 ≤ countCommaAnd line) :
    m8_and_pronoun [line] = [line] := by
  rw [m8_single]
  unfold m8Line
  by_cases hl : 45 ≤ line.length ∧ line.length ≤ 70
  · rw [if_pos hl, if_pos h]
  · rw [if_neg hl]

/-- A triadic line with two `", and "` occurrences, inside the 45-70
length window so only the triad guard protects it. -/
def c4line : Line := "there came many, and he did go, and they did come unto him".toList

theorem c4_m8_triad_witness :
    2 ≤ countCommaAnd c4line ∧ m8_and_pronoun [c4line] = [c4line] :=
  ⟨by decide, c4_m8_triad c4line (by decide)⟩

theorem flattenMap_single (f : Line → List Line) (L : Line) : ([L].map f).flatten = f L := by
  simp

-- ============================================================
-- M3: yea trailing → launching (senseline_reformat_v6.py:219-234)
-- ============================================================

/-- Match condition of the comma form `^(.{10,}?),\s+(yea,\s+.+)$` at
prefix length `a`.  The tail `\s+.+$` after `yea,` matches exactly when
the remaining text starts with a whitespace character and has length at
least 2: when it is all whitespace, greedy `\s+` gives one character
back and `.+` matches that final whitespace character (`.` matches
whitespace). -/
def m3CommaCondAt (line : Line) (a : Nat) : Bool :=
  10 ≤ a && chAt line a ',' && 1 ≤ wsRunAt line (a + 1) &&
  occursAt ("yea,".toList) line (a + 1 + wsRunAt line (a + 1)) &&
  1 ≤ wsRunAt line (a + 1 + wsRunAt line (a + 1) + 4) &&
  decide (a + 1 + wsRunAt line (a + 1) + 4 + 2 ≤ line.length)

/-- Lazy `.{10,}?`: the smallest matching prefix length wins. -/
def m3CommaMatch (line : Line) : Option Nat :=
  (List.range line.length).find? (m3CommaCondAt line)

/-- The dash form's group `(.{10,?})` contains the malformed quantifier
`{10,?}`, which Python's regex engine rejects as a quantifier and
re-parses as the literal characters `{`, `1`, `0`, an optional comma
(`,` followed by the `?` quantifier) and `}`.  The group therefore
matches exactly: one arbitrary character, then `{10`, an optional `,`,
then `}` — group-1 length 6 or 5. -/
def m3DashHead (line : Line) : Option Nat :=
  if occursAt ("\x7b10".toList) line 1 then
    if chAt line 4 ',' && chAt line 5 '\x7d' then some 6
    else if chAt line 4 '\x7d' then some 5
    else none
  else none

/-- Match of the dash form `^(.{10,?})--\s*(yea,\s+.+)$`: returns
(group-1 length, group-2 start).  As in the comma form, the tail
`\s+.+$` after `yea,` matches exactly when the remaining text starts
with whitespace and has length at least 2 (`\s+` backtracks and `.+`
takes the final whitespace character when the tail is all
whitespace). -/
def m3DashMatch (line : Line) : Option (Nat × Nat) :=
  match m3DashHead line with
  | none => none
  | some k =>
    if occursAt ("--".toList) line k then
      if occursAt ("yea,".toList) line (k + 2 + wsRunAt line (k + 2)) &&
          1 ≤ wsRunAt line (k + 2 + wsRunAt line (k + 2) + 4) &&
          decide (k + 2 + wsRunAt line (k + 2) + 4 + 2 ≤ line.length) then
        some (k, k + 2 + wsRunAt line (k + 2))
      else none
    else none

/-- Per-line body of the M3 loop: comma form first, then dash form. -/
def m3Line (line : Line) : List Line :=
  match m3CommaMatch line with
  | some a => [line.take a ++ [','], line.drop (a + 1 + wsRunAt line (a + 1))]
  | none =>
    match m3DashMatch line with
    | some kg => [line.take kg.1 ++ ("--".toList), line.drop kg.2]
    | none => [line]

/-- `m3_yea_trailing(lines)`. -/
def m3_yea_trailing (lines : List Line) : List Line :=
  (lines.map m3Line).flatten

-- ============================================================
-- Claim C10
-- ============================================================

/-- A line of the form `X--yea, Y` where `X` does not contain the
five-character text `{10,?}` (it contains `{10,}`), which the dash
branch nevertheless splits. -/
def c10line : Line := "z\x7b10,\x7d--yea, hello there".toList

/-- C10 counterexample: the claim says a line `X--yea, Y` whose `X`
does not contain the literal text `{10,?}` is never split at the dash;
but `c10line` (whose head is `z{10,}`) is exactly what the re-parsed
pattern accepts, and M3 splits it at the dash. -/
theorem c10_counterexample :
    m3_yea_trailing [c10line] =
      ["z\x7b10,\x7d--".toList, "yea, hello there".toList] ∧
    containsSub ("\x7b10,?\x7d".toList) c10line = false := by decide

/-- C10 (amended): the dash branch of M3 accepts only lines whose
second character starts the literal text `{10`, then an optional
comma, then `}`; in particular a line containing no `{` at all is
never split at the dash, and when the comma form also fails M3 leaves
it unchanged. -/
theorem c10_m3_dash_dead (line : Line) (hbrace : '\x7b' ∉ line) :
    m3DashMatch line = none ∧
      (m3CommaMatch line = none → m3_yea_trailing [line] = [line]) := by
  have hd : m3DashHead line = none := by
    unfold m3DashHead
    by_cases hocc : occursAt ("\x7b10".toList) line 1 = true
    · exact absurd (occursAt_mem _ '\x7b' line 1 (by decide) hocc) hbrace
    · rw [if_neg hocc]
  have hdm : m3DashMatch line = none := by
    unfold m3DashMatch
    rw [hd]
  refine ⟨hdm, ?_⟩
  intro hc
  rw [m3_yea_trailing, flattenMap_single, m3Line, hc, hdm]

/-- A brace-free line that neither form of M3 matches. -/
def c10w : Line := "and he spake many words unto them".toList

theorem c10_m3_dash_dead_witness :
    m3DashMatch c10w = none ∧ m3_yea_trailing [c10w] = [c10w] :=
  ⟨(c10_m3_dash_dead c10w (by decide)).1,
   (c10_m3_dash_dead c10w (by decide)).2 (by decide)⟩

-- ============================================================
-- M9: subject-predicate split at modal verbs
-- (senseline_reformat_v6.py:369-410)
-- ============================================================

def modalWords : List Line :=
  ["shall ", "will ", "should ", "would ", "must ", "can ", "could ", "may ", "might "].map
    String.toList

/-- Matcher for `MODALS_PAT`: a word boundary, then one of the modal
alternatives (each carrying its trailing space). -/
def modalMatchAt (line : Line) (p : Nat) : Option Nat :=
  if decide (p = 0) || !(chSat line (p - 1) isPyWord) then
    match modalWords.find? (fun w => occursAt w line p) with
    | some w => some w.length
    | none => none
  else none

def speechNearPats : List Line :=
  ["said", "saith", "spake", "spoke", "say ", "says "].map String.toList

/-- `SPEECH_NEAR_PAT.search(s)` used as a containment test. -/
def hasSpeechNear (s : Line) : Bool :=
  speechNearPats.any (fun w => containsSub w s)

/-- The guard chain of M9 for a modal match at `pos`. -/
def m9Guards (line : Line) (pos : Nat) : Bool :=
  30 ≤ (rstripWs (line.take pos)).length &&
  20 ≤ (line.drop pos).length &&
  !(containsSub [','] (pySlice line (pos - 5) pos)) &&
  !(containsSub ("that ".toList) (pySlice line (pos - 10) pos)) &&
  !(hasSpeechNear (pySlice line (pos - 15) pos)) &&
  !(containsSub ("save ".toList) (pySlice line (pos - 10) pos)) &&
  !(containsSub (" if ".toList) (pySlice line (pos - 10) pos))

/-- The `for m in MODALS_PAT.finditer(line)` loop: first match whose
guards all pass. -/
def m9FirstSplit : List (Nat × Nat) → Line → Option Nat
  | [], _ => none
  | (p, _) :: rest, line => if m9Guards line p then some p else m9FirstSplit rest line

def m9Line (line : Line) : List Line :=
  if line.length ≤ 70 then [line]
  else
    match m9FirstSplit (finditer (modalMatchAt line) line.length) line with
    | some pos => [rstripWs (line.take pos), line.drop pos]
    | none => [line]

/-- `m9_subject_predicate(lines)`. -/
def m9_subject_predicate (lines : List Line) : List Line :=
  (lines.map m9Line).flatten

-- ============================================================
-- Claim C8
-- ============================================================

/-- C8: the guard-correctness example line
`"and he said unto them that he should go"` is returned unchanged by
M9; in particular it is not split at `should`.  (The line is 39
characters, so it already fails M9's `len > 70` trigger; the M9 guard
chain, including the speech-verb proximity guard, is embedded in
`m9Guards` above.) -/
theorem c8_m9_guard_example :
    m9_subject_predicate ["and he said unto them that he should go".toList] =
      ["and he said unto them that he should go".toList] := by decide

-- ============================================================
-- M14: inverted conditional consequence split
-- (senseline_reformat_v6.py:569-599)
-- ============================================================

def pronouns14 : List Line :=
  ["we", "they", "he", "I", "ye", "she", "it", "thou"].map String.toList

def modals14 : List Line :=
  ["shall", "should", "would", "will", "must", "could", "may", "might"].map String.toList

/-- One start position of `.*\bhad\s+(?:pronoun)\b` inside the slice
`line[:30]` (the trailing `\b` may fall on the end of the slice). -/
def m14OpenerAt (s : Line) (p : Nat) : Bool :=
  (decide (p = 0) || !(chSat s (p - 1) isPyWord)) &&
  occursAt ("had".toList) s p &&
  1 ≤ wsRunAt s (p + 3) &&
  pronouns14.any (fun w =>
    occursAt w s (p + 3 + wsRunAt s (p + 3)) &&
    !(chSat s (p + 3 + wsRunAt s (p + 3) + w.length) isPyWord))

/-- `re.match(r'.*\bhad\s+PRONOUN\b', line[:30])` is truthy. -/
def m14Opener (s : Line) : Bool :=
  (List.range s.length).any (m14OpenerAt s)

/-- One match position of `\b(pronoun)\s+(modal)\b` in the slice `t`. -/
def m14ConsequenceAt (t : Line) (q : Nat) : Bool :=
  (decide (q = 0) || !(chSat t (q - 1) isPyWord)) &&
  pronouns14.any (fun w =>
    occursAt w t q && 1 ≤ wsRunAt t (q + w.length) &&
    modals14.any (fun mo =>
      occursAt mo t (q + w.length + wsRunAt t (q + w.length)) &&
      !(chSat t (q + w.length + wsRunAt t (q + w.length) + mo.length) isPyWord)))

/-- `re.search` on `line[25:]`: leftmost match start. -/
def m14Search (t : Line) : Option Nat :=
  (List.range t.length).find? (m14ConsequenceAt t)

/-- Per-line body of the M14 loop. -/
def m14Line (line : Line) : List Line :=
  if line.length < 40 then [line]
  else if !(m14Opener (line.take 30)) then [line]
  else
    match m14Search (line.drop 25) with
    | none => [line]
    | some q =>
      if containsSub [','] (pySlice line (25 + q - 5) (25 + q)) then [line]
      else
        if 20 ≤ (rstripWs (line.take (25 + q))).length ∧ 15 ≤ (line.drop (25 + q)).length then
          [rstripWs (line.take (25 + q)), line.drop (25 + q)]
        else [line]

/-- `m14_inverted_conditional(lines)`. -/
def m14_inverted_conditional (lines : List Line) : List Line :=
  (lines.map m14Line).flatten

-- ============================================================
-- Claim C7
-- ============================================================

/-- A line with an inverted-conditional opener (`had we` at position
0..5), a comma at position 21, and the consequence `we should` at
position 35: the comma lies between the opener and the consequence,
but not in the 5-character window `line[30:35]` the code checks. -/
def c7line : Line := "had we stayed at home, surely then we should have perished in it".toList

/-- C7 counterexample: M14 splits `c7line` even though a comma occurs
between the opener and the consequence clause — the code only checks
the 5 characters immediately before the split position. -/
theorem c7_counterexample :
    m14_inverted_conditional [c7line] =
      ["had we stayed at home, surely then".toList,
       "we should have perished in it".toList] ∧
    chAt c7line 21 ',' = true ∧ m14Search (c7line.drop 25) = some 10 := by decide

/-- C7 (amended): M14 skips the line exactly when a comma occurs in
the five characters immediately before the split position
(`line[split_pos-5:split_pos]`); a comma elsewhere between the opener
and the consequence does not prevent the split. -/
theorem c7_m14_comma_window (line : Line) (q : Nat)
    (hq : m14Search (line.drop 25) = some q)
    (hcomma : containsSub [','] (pySlice line (25 + q - 5) (25 + q)) = true) :
    m14_inverted_conditional [line] = [line] := by
  rw [m14_inverted_conditional, flattenMap_single, m14Line]
  by_cases h40 : line.length < 40
  · rw [if_pos h40]
  · rw [if_neg h40]
    by_cases hop : m14Opener (line.take 30) = true
    · rw [hop]
      simp only [Bool.not_true, hq, hcomma, if_true]
      simp
    · simp [hop]

/-- A line whose first pronoun+modal match after position 25 has a
comma right before it. -/
def c7w : Line := "had we remained in the city, we should not have perished now".toList

theorem c7_m14_comma_window_witness :
    m14Search (c7w.drop 25) = some 4 ∧
    containsSub [','] (pySlice c7w 24 29) = true ∧
    m14_inverted_conditional [c7w] = [c7w] :=
  ⟨by decide, by decide, c7_m14_comma_window c7w 4 (by decide) (by decide)⟩

-- ============================================================
-- M0: em dash trailing word reattachment
-- (senseline_reformat_v6.py:147-157)
-- ============================================================

/-- The tail matches `[\w]+[,;.]?$`: a nonempty word-character run,
optionally followed by one of `,` `;` `.`. -/
def m0TailOk (t : Line) : Bool :=
  match t.getLast? with
  | none => false
  | some c =>
    if c == ',' || c == ';' || c == '.' then
      !(t.dropLast.isEmpty) && t.dropLast.all isPyWord
    else t.all isPyWord

/-- Match condition of `^(.+)--([\w]+[,;.]?)$` with the `--` at `q`. -/
def m0CondAt (line : Line) (q : Nat) : Bool :=
  1 ≤ q && occursAt ("--".toList) line q && m0TailOk (line.drop (q + 2))

/-- Greedy `.+`: the rightmost `--` with a valid tail wins. -/
def m0Match (line : Line) : Option Nat :=
  ((List.range line.length).reverse).find? (m0CondAt line)

/-- The `while i < len(result) - 1` loop of M0: a match rewrites the
current line and prepends the dangling word onto the next line, which
is then examined in the following iteration. -/
def m0Go : Line → List Line → List Line
  | cur, [] => [cur]
  | cur, next :: rest =>
    match m0Match cur with
    | some q => (cur.take q ++ ("--".toList)) :: m0Go (cur.drop (q + 2) ++ [' '] ++ next) rest
    | none => cur :: m0Go next rest

/-- `m0_emdash_trailing(lines)`. -/
def m0_emdash_trailing (lines : List Line) : List Line :=
  match lines with
  | [] => []
  | l :: rest => m0Go l rest

-- ============================================================
-- M1: AICTP isolation (senseline_reformat_v6.py:164-192)
-- ============================================================

def aictpFormulas : List Line :=
  ["And now it came to pass that ", "And it came to pass that ",
   "For it came to pass that ", "Wherefore it came to pass that ",
   "And it came to pass, "].map String.toList

def m1Line (line : Line) : List Line :=
  match aictpFormulas.find? (fun f => prefixAt f line && decide (42 < line.length)) with
  | some f => [rstripWs f, line.drop f.length]
  | none =>
    if prefixAt ("And it came to pass ".toList) line &&
        !(prefixAt ("And it came to pass that".toList) line) &&
        decide (40 < line.length) then
      [("And it came to pass").toList, line.drop 20]
    else [line]

/-- `m1_aictp(lines)`. -/
def m1_aictp (lines : List Line) : List Line :=
  (lines.map m1Line).flatten

-- ============================================================
-- M2: behold mid-line hinge (senseline_reformat_v6.py:199-212)
-- ============================================================

/-- Separator alternation `(,\s+|;\s+|--\s*)` at `a`: returns the
rstripped separator text and the group-3 start. -/
def m2SepAt (line : Line) (a : Nat) : Option (Line × Nat) :=
  if chAt line a ',' && 1 ≤ wsRunAt line (a + 1) then
    some ([','], a + 1 + wsRunAt line (a + 1))
  else if chAt line a ';' && 1 ≤ wsRunAt line (a + 1) then
    some ([';'], a + 1 + wsRunAt line (a + 1))
  else if occursAt ("--".toList) line a then
    some ("--".toList, a + 2 + wsRunAt line (a + 2))
  else none

/-- `behold[,;]?\s.+` (case-insensitive) at position `g`.  The optional
punctuation is taken when present; the single `\s` and the nonempty
rest follow it. -/
def m2BeholdAt (line : Line) (g : Nat) : Bool :=
  occursAtCI ("behold".toList) line g &&
  (if chAt line (g + 6) ',' || chAt line (g + 6) ';' then
    chSat line (g + 7) isPySpace && decide (g + 8 < line.length)
  else
    chSat line (g + 6) isPySpace && decide (g + 7 < line.length))

def m2CondAt (line : Line) (a : Nat) : Bool :=
  15 ≤ a &&
  (match m2SepAt line a with
   | some sg => m2BeholdAt line sg.2
   | none => false)

/-- Lazy `.{15,}?`: smallest prefix length wins. -/
def m2Match (line : Line) : Option Nat :=
  (List.range line.length).find? (m2CondAt line)

def m2Line (line : Line) : List Line :=
  match m2Match line with
  | some a =>
    match m2SepAt line a with
    | some sg =>
      if 15 ≤ a ∧ 15 ≤ line.length - sg.2 then [line.take a ++ sg.1, line.drop sg.2]
      else [line]
    | none => [line]
  | none => [line]

/-- `m2_behold_hinge(lines)`. -/
def m2_behold_hinge (lines : List Line) : List Line :=
  (lines.map m2Line).flatten

-- ============================================================
-- M4: insomuch split (senseline_reformat_v6.py:241-253)
-- ============================================================

/-- Match condition of `^(.{10,}?)\s+(insomuch\s+that\s+.+)$`
(case-insensitive) at prefix length `a`.  The tail `\s+.+$` after
`that` matches exactly when the remaining text starts with whitespace
and has length at least 2 (`\s+` backtracks and `.+` takes the final
whitespace character when the tail is all whitespace). -/
def m4CondAt (line : Line) (a : Nat) : Bool :=
  10 ≤ a && 1 ≤ wsRunAt line a &&
  occursAtCI ("insomuch".toList) line (a + wsRunAt line a) &&
  1 ≤ wsRunAt line (a + wsRunAt line a + 8) &&
  occursAtCI ("that".toList) line
    (a + wsRunAt line a + 8 + wsRunAt line (a + wsRunAt line a + 8)) &&
  1 ≤ wsRunAt line
    (a + wsRunAt line a + 8 + wsRunAt line (a + wsRunAt line a + 8) + 4) &&
  decide (a + wsRunAt line a + 8 + wsRunAt line (a + wsRunAt line a + 8) + 4 + 2
    ≤ line.length)

def m4Match (line : Line) : Option Nat :=
  (List.range line.length).find? (m4CondAt line)

def m4Line (line : Line) : List Line :=
  match m4Match line with
  | some a => [line.take a, line.drop (a + wsRunAt line a)]
  | none => [line]

/-- `m4_insomuch(lines)`. -/
def m4_insomuch (lines : List Line) : List Line :=
  (lines.map m4Line).flatten

-- ============================================================
-- M5: vocative split (senseline_reformat_v6.py:260-271)
-- ============================================================

/-- `VOCATIVE_ADDRESSES` sorted longest-first (Python's stable sort). -/
def vocativeAlts : List Line :=
  ["captive daughter of Zion", "my beloved brethren", "house of Israel", "my brethren",
   "my people", "ye people", "my sons", "my son", "Lord"].map String.toList

/-- Length of the `[, ]+` run at `p`. -/
def runCommaSpaceAt (l : Line) (p : Nat) : Nat :=
  ((l.drop p).takeWhile (fun c => c == ',' || c == ' ')).length

/-- Try one vocative alternative of `VOCATIVE_PAT` at position `b`:
the alternative (case-insensitively), an optional `,` or `!`, then
`\s+` and a group 2 of at least 15 characters — the greedy `\s+` takes
the largest run prefix that leaves 15 characters.  Returns
(group-1 end, group-2 start). -/
def m5TryAlt (line : Line) (b : Nat) (alt : Line) : Option (Nat × Nat) :=
  if occursAtCI alt line b then
    if chAt line (b + alt.length) ',' || chAt line (b + alt.length) '!' then
      if 1 ≤ wsRunAt line (b + alt.length + 1) && b + alt.length + 1 + 16 ≤ line.length then
        some (b + alt.length + 1, b + alt.length + 1 +
          min (wsRunAt line (b + alt.length + 1)) (line.length - (b + alt.length + 1) - 15))
      else none
    else
      if 1 ≤ wsRunAt line (b + alt.length) && b + alt.length + 16 ≤ line.length then
        some (b + alt.length, b + alt.length +
          min (wsRunAt line (b + alt.length)) (line.length - (b + alt.length) - 15))
      else none
  else none

/-- `VOCATIVE_PAT.match(line)`: `O`, a `[, ]+` run, then the longest
alternative that completes the pattern. -/
def m5Match (line : Line) : Option (Nat × Nat) :=
  if occursAtCI (['O'] : Line) line 0 && 1 ≤ runCommaSpaceAt line 1 then
    vocativeAlts.findSome? (m5TryAlt line (1 + runCommaSpaceAt line 1))
  else none

def m5Line (line : Line) : List Line :=
  if 40 < line.length then
    match m5Match line with
    | some pg => [line.take pg.1, line.drop pg.2]
    | none => [line]
  else [line]

/-- `m5_vocative(lines)`. -/
def m5_vocative (lines : List Line) : List Line :=
  (lines.map m5Line).flatten

-- ============================================================
-- M6: according-to split (senseline_reformat_v6.py:278-289)
-- ============================================================

/-- Match condition of `^(.{20,}?),\s+(according to\s.+)$` at prefix
length `a`. -/
def m6CondAt (line : Line) (a : Nat) : Bool :=
  20 ≤ a && chAt line a ',' && 1 ≤ wsRunAt line (a + 1) &&
  occursAt ("according to".toList) line (a + 1 + wsRunAt line (a + 1)) &&
  chSat line (a + 1 + wsRunAt line (a + 1) + 12) isPySpace &&
  decide (a + 1 + wsRunAt line (a + 1) + 13 < line.length)

def m6Match (line : Line) : Option Nat :=
  (List.range line.length).find? (m6CondAt line)

def m6Line (line : Line) : List Line :=
  if 58 < line.length then
    match m6Match line with
    | some a => [line.take a ++ [','], line.drop (a + 1 + wsRunAt line (a + 1))]
    | none => [line]
  else [line]

/-- `m6_according_to(lines)`. -/
def m6_according_to (lines : List Line) : List Line :=
  (lines.map m6Line).flatten

-- ============================================================
-- M7: speech verb + content word split
-- (senseline_reformat_v6.py:51-78, 296-337)
-- ============================================================

/-- `SPEECH_VERBS` after `sort(key=len, reverse=True)` (stable). -/
def speechVerbsSorted : List Line :=
  ["sufficeth me to say", "prophesieth",
   "made known", "make known", "testifieth", "prophesied", "witnessing",
   "rehearsed", "testified", "witnessed",
   "speaketh", "prophesy", "preached", "teacheth", "declared",
   "testify", "declare", "witness", "written", "writeth", "showeth",
   "spoken", "preach", "taught", "showed",
   "spake", "spoke", "speak", "saith", "teach", "cried", "write",
   "said", "told", "tell", "show",
   "say", "cry"].map String.toList

/-- The separator `\s*,?\s+` of the M7 pattern starting at `e`,
followed by the captured content word and one trailing `\s`; the
region is either a pure whitespace run or whitespace, one comma, and a
nonempty whitespace run.  Returns `m.start(1)`, the content-word
start. -/
def m7SepWord (line : Line) (e : Nat) (cw : Line) : Option Nat :=
  if chAt line (e + wsRunAt line e) ',' then
    if 1 ≤ wsRunAt line (e + wsRunAt line e + 1) &&
        occursAtCI cw line (e + wsRunAt line e + 1 + wsRunAt line (e + wsRunAt line e + 1)) &&
        chSat line (e + wsRunAt line e + 1 + wsRunAt line (e + wsRunAt line e + 1) + cw.length)
          isPySpace then
      some (e + wsRunAt line e + 1 + wsRunAt line (e + wsRunAt line e + 1))
    else none
  else
    if 1 ≤ wsRunAt line e && occursAtCI cw line (e + wsRunAt line e) &&
        chSat line (e + wsRunAt line e + cw.length) isPySpace then
      some (e + wsRunAt line e)
    else none

/-- Candidate end positions of the inner recipient alternation
`them|him|her|you|us|me|all|the\s+\w+|his\s+\w+|my\s+\w+|thy\s+\w+|our\s+\w+|\w+`
starting at `b`, in the engine's preference order (alternatives in
written order; a greedy `\w+` proposes its longest run first). -/
def m7InnerEnds (line : Line) (b : Nat) : List Nat :=
  ((["them", "him", "her", "you", "us", "me", "all"].map String.toList).filterMap
    (fun w => if occursAtCI w line b then some (b + w.length) else none)) ++
  ((["the", "his", "my", "thy", "our"].map String.toList).flatMap (fun d =>
    if occursAtCI d line b && 1 ≤ wsRunAt line (b + d.length) then
      (List.range (wordRunAt line (b + d.length + wsRunAt line (b + d.length)))).reverse.map
        (fun k => b + d.length + wsRunAt line (b + d.length) + k + 1)
    else [])) ++
  ((List.range (wordRunAt line b)).reverse.map (fun k => b + k + 1))

/-- Candidate end positions of `RECIPIENT_PAT` (an optional greedy
group: the present parses come first, the absent parse last). -/
def m7RecipEnds (line : Line) (after : Nat) : List Nat :=
  (if 1 ≤ wsRunAt line after then
    (["unto", "to"].map String.toList).flatMap (fun prep =>
      if occursAtCI prep line (after + wsRunAt line after) &&
          1 ≤ wsRunAt line (after + wsRunAt line after + prep.length) then
        m7InnerEnds line (after + wsRunAt line after + prep.length +
          wsRunAt line (after + wsRunAt line after + prep.length))
      else [])
  else []) ++ [after]

/-- Try the full M7 pattern with the match starting (at a speech verb)
at position `p`; returns `m.start(1)`. -/
def m7TryAt (line : Line) (p : Nat) (cw : Line) : Option Nat :=
  speechVerbsSorted.findSome? (fun v =>
    if occursAtCI v line p then
      (m7RecipEnds line (p + v.length)).findSome? (fun e => m7SepWord line e cw)
    else none)

/-- `re.search`: leftmost match start. -/
def m7Search (line : Line) (cw : Line) : Option Nat :=
  (List.range line.length).findSome? (fun p => m7TryAt line p cw)

/-- The content words of `_find_speech_content_split`, in order, with
the flag marking the `content_clause_check` for `that`. -/
def m7ContentWords : List (Line × Bool) :=
  [("concerning".toList, false), ("how".toList, false), ("that".toList, true),
   ("all things what".toList, false), ("all things that".toList, false)]

/-- `_find_speech_content_split(line)` (senseline_reformat_v6.py:312-337). -/
def m7FindSplit (line : Line) : Option (Line × Line) :=
  m7ContentWords.findSome? (fun cwc =>
    match m7Search line cwc.1 with
    | none => none
    | some idx =>
      if cwc.2 && !(contentAfterThat.any (fun s => prefixAt s (line.drop (idx + 5)))) then
        none
      else
        if 18 ≤ (rstripCommaSpace (line.take idx)).length ∧ 18 ≤ (line.drop idx).length then
          some (rstripCommaSpace (line.take idx), line.drop idx)
        else none)

def m7Line (line : Line) : List Line :=
  if line.length < 48 then [line]
  else
    match m7FindSplit line with
    | some lr => [lr.1, lr.2]
    | none => [line]

/-- `m7_speech_content(lines)`. -/
def m7_speech_content (lines : List Line) : List Line :=
  (lines.map m7Line).flatten

-- ============================================================
-- M11: speech frame split (senseline_reformat_v6.py:504-524)
-- ============================================================

/-- Inverted attribution `(?:said|saith)\s+(?:he|she|they|I)` starting
at `s` and followed by the closing comma; returns the comma position. -/
def m11VariantA (line : Line) (s : Nat) : Option Nat :=
  (["said", "saith"].map String.toList).findSome? (fun v =>
    if occursAt v line s && 1 ≤ wsRunAt line (s + v.length) then
      (["he", "she", "they", "I"].map String.toList).findSome? (fun pr =>
        if occursAt pr line (s + v.length + wsRunAt line (s + v.length)) &&
            chAt line (s + v.length + wsRunAt line (s + v.length) + pr.length) ',' then
          some (s + v.length + wsRunAt line (s + v.length) + pr.length)
        else none)
    else none)

def m11Subjects : List Line :=
  ["God", "the Lord God", "the Lord", "Christ", "the Messiah", "the Spirit",
   "he", "she", "they", "I"].map String.toList

def m11AuxWords : List Line := ["hath ", "has ", "had "].map String.toList

def m11Verbs : List Line := ["said", "saith", "spake", "declared"].map String.toList

/-- Normal attribution
`(?:God|the Lord God|...)\s+(?:hath |has |had )?(?:said|saith|spake|declared)`
starting at `s`, followed by the closing comma; one candidate comma
position per matching subject alternative, in order.  (No verb starts
with `h`, so when an auxiliary matches, the aux-less parse cannot
succeed and no backtracking over the optional group is needed.) -/
def m11VariantBList (line : Line) (s : Nat) : List Nat :=
  m11Subjects.filterMap (fun subj =>
    if occursAt subj line s && 1 ≤ wsRunAt line (s + subj.length) then
      m11Verbs.findSome? (fun v =>
        let q := s + subj.length + wsRunAt line (s + subj.length)
        let q2 := match m11AuxWords.find? (fun aux => occursAt aux line q) with
          | some aux => q + aux.length
          | none => q
        if occursAt v line q2 && chAt line (q2 + v.length) ',' then some (q2 + v.length)
        else none)
    else none)

/-- All candidate closing-comma positions for an attribution starting
at `s`, in preference order. -/
def m11CandEnds (line : Line) (s : Nat) : List Nat :=
  (match m11VariantA line s with
   | some c => [c]
   | none => []) ++ m11VariantBList line s

/-- The tail `\s+(.{10,})$` after the comma at `c`: greedy `\s+` takes
the largest run prefix leaving at least 10 characters; returns the
group-2 start. -/
def m11Tail (line : Line) (c : Nat) : Option Nat :=
  if 1 ≤ wsRunAt line (c + 1) && c + 12 ≤ line.length then
    some (c + 1 + min (wsRunAt line (c + 1)) (line.length - c - 11))
  else none

/-- `_SPEECH_FRAME_PAT.match(line)`: the greedy leading `.+` prefers
the rightmost attribution start `s ≥ 1`; returns (comma position,
group-2 start). -/
def m11Match (line : Line) : Option (Nat × Nat) :=
  ((List.range line.length).reverse).findSome? (fun s =>
    if 1 ≤ s then
      (m11CandEnds line s).findSome? (fun c => (m11Tail line c).map (fun g2 => (c, g2)))
    else none)

def m11Line (line : Line) : List Line :=
  match m11Match line with
  | some cg => [line.take (cg.1 + 1), line.drop cg.2]
  | none => [line]

/-- `m11_speech_frame(lines)`. -/
def m11_speech_frame (lines : List Line) : List Line :=
  (lines.map m11Line).flatten

-- ============================================================
-- M13: "made an end of [gerund]" split
-- (senseline_reformat_v6.py:550-562)
-- ============================================================

/-- Match condition of `^(.+made an end)\s+(of\s+\w+ing\b.+)$` with
`made an end` starting at `d`. -/
def m13CondAt (line : Line) (d : Nat) : Bool :=
  1 ≤ d && occursAt ("made an end".toList) line d &&
  1 ≤ wsRunAt line (d + 11) &&
  occursAt ("of".toList) line (d + 11 + wsRunAt line (d + 11)) &&
  1 ≤ wsRunAt line (d + 11 + wsRunAt line (d + 11) + 2) &&
  (let w := d + 11 + wsRunAt line (d + 11) + 2 +
      wsRunAt line (d + 11 + wsRunAt line (d + 11) + 2)
   4 ≤ wordRunAt line w &&
   occursAt ("ing".toList) line (w + wordRunAt line w - 3) &&
   decide (w + wordRunAt line w < line.length))

/-- Greedy `.+`: the rightmost occurrence wins. -/
def m13Match (line : Line) : Option Nat :=
  ((List.range line.length).reverse).find? (m13CondAt line)

def m13Line (line : Line) : List Line :=
  match m13Match line with
  | some d => [line.take (d + 11), line.drop (d + 11 + wsRunAt line (d + 11))]
  | none => [line]

/-- `m13_end_of_gerund(lines)`. -/
def m13_end_of_gerund (lines : List Line) : List Line :=
  (lines.map m13Line).flatten

-- ============================================================
-- M15: passive verb + directional prep split
-- (senseline_reformat_v6.py:606-633)
-- ============================================================

def m15Copulas : List Line := ["is", "are", "was", "were", "been", "be"].map String.toList

def m15Preps : List Line :=
  ["unto", "upon", "for", "from", "by", "among", "against", "into", "out of"].map
    String.toList

def motionVerbs : List Line :=
  ["scattered", "driven", "led", "turned", "sent", "taken", "cast", "placed", "put"].map
    String.toList

/-- Try one copula alternative at `s` in `_PASSIVE_PREP_PAT`: copula,
`\s+`, the `(?!not\b)` lookahead, a participle (`\w+(?:ed|en|t|wn)`,
which must consume the whole word run since `\s+` follows), `\s+`, a
directional preposition and its `\s+.+` continuation (which matches
exactly when the text after the preposition starts with whitespace and
has length at least 2: `\s+` backtracks and `.+` takes the final
whitespace character when that text is all whitespace).  Returns
(participle start, participle end, group-3 start). -/
def m15TryCopula (line : Line) (s : Nat) (v : Line) : Option (Nat × Nat × Nat) :=
  if occursAt v line s && 1 ≤ wsRunAt line (s + v.length) then
    if occursAt ("not".toList) line (s + v.length + wsRunAt line (s + v.length)) &&
        !(chSat line (s + v.length + wsRunAt line (s + v.length) + 3) isPyWord) then none
    else
      if (2 ≤ wordRunAt line (s + v.length + wsRunAt line (s + v.length)) &&
          chAt line (s + v.length + wsRunAt line (s + v.length) +
            wordRunAt line (s + v.length + wsRunAt line (s + v.length)) - 1) 't') ||
         (3 ≤ wordRunAt line (s + v.length + wsRunAt line (s + v.length)) &&
          (occursAt ("ed".toList) line (s + v.length + wsRunAt line (s + v.length) +
             wordRunAt line (s + v.length + wsRunAt line (s + v.length)) - 2) ||
           occursAt ("en".toList) line (s + v.length + wsRunAt line (s + v.length) +
             wordRunAt line (s + v.length + wsRunAt line (s + v.length)) - 2) ||
           occursAt ("wn".toList) line (s + v.length + wsRunAt line (s + v.length) +
             wordRunAt line (s + v.length + wsRunAt line (s + v.length)) - 2))) then
        if 1 ≤ wsRunAt line (s + v.length + wsRunAt line (s + v.length) +
            wordRunAt line (s + v.length + wsRunAt line (s + v.length))) then
          match m15Preps.findSome? (fun prep =>
            let ps := s + v.length + wsRunAt line (s + v.length) +
              wordRunAt line (s + v.length + wsRunAt line (s + v.length)) +
              wsRunAt line (s + v.length + wsRunAt line (s + v.length) +
                wordRunAt line (s + v.length + wsRunAt line (s + v.length)))
            if occursAt prep line ps && 1 ≤ wsRunAt line (ps + prep.length) &&
                decide (ps + prep.length + 2 ≤ line.length) then
              some ps
            else none) with
          | some ps =>
            some (s + v.length + wsRunAt line (s + v.length),
              s + v.length + wsRunAt line (s + v.length) +
                wordRunAt line (s + v.length + wsRunAt line (s + v.length)), ps)
          | none => none
        else none
      else none
  else none

/-- Greedy `.+`: the rightmost copula start `s ≥ 1` wins. -/
def m15Match (line : Line) : Option (Nat × Nat × Nat) :=
  ((List.range line.length).reverse).findSome? (fun s =>
    if 1 ≤ s then m15Copulas.findSome? (m15TryCopula line s) else none)

def m15Line (line : Line) : List Line :=
  if line.length < 50 then [line]
  else
    match m15Match line with
    | some r =>
      if !(motionVerbs.contains (pySlice line r.1 r.2.1)) &&
          18 ≤ r.2.1 && 15 ≤ line.length - r.2.2 then
        [line.take r.2.1, line.drop r.2.2]
      else [line]
    | none => [line]

/-- `m15_passive_prep(lines)`. -/
def m15_passive_prep (lines : List Line) : List Line :=
  (lines.map m15Line).flatten

-- ============================================================
-- M16: deity appositive split (senseline_reformat_v6.py:640-697)
-- ============================================================

/-- `_DEITY_TITLES` after `sort(key=len, reverse=True)` (stable). -/
def deityTitles : List Line :=
  ["the rock of my righteousness",
   "the Mighty One of Israel",
   "the Lord God Omnipotent", "the Mighty One of Jacob",
   "the Holy One of Israel", "the Everlasting Father", "The Everlasting Father",
   "the Lord God Almighty", "the Lord Jesus Christ",
   "the Prince of Peace", "The Prince of Peace",
   "Holy One of Israel", "the God of Abraham", "the Eternal Father", "the king of heaven",
   "the God of Israel", "the Most High God", "the Lord of Hosts", "the Great Creator",
   "the Eternal Judge", "the Good Shepherd",
   "the God of Isaac", "the God of Jacob", "the true Messiah",
   "the Lamb of God", "the Holy Spirit",
   "the Son of God", "Eternal Father", "the Mighty One", "the Mighty God",
   "The Mighty God", "the Holy Ghost", "their Redeemer",
   "God of Israel", "Most High God", "the Most High", "Lord of Hosts", "your Redeemer",
   "the Lord God", "the Holy One", "the Almighty", "the Redeemer", "the Mediator",
   "Jesus Christ", "our Redeemer", "thy Redeemer",
   "Lamb of God", "the Messiah", "the Creator", "my Redeemer",
   "Son of God", "the Savior", "the Father", "thy Savior",
   "their God", "my Savior",
   "Lord God", "the Lord", "the Lamb", "your God",
   "the Son", "Messiah", "our God", "thy God", "his God",
   "Christ", "my God",
   "Jesus",
   "God"].map String.toList

/-- Try `_DEITY_APPOS_PAT` with the first title starting at `k` (the
lazy `.*?` proposes `k` ascending; the `\b` before the title requires a
non-word character before `k`).  Returns (comma position, group-2
start). -/
def m16TryAt (line : Line) (k : Nat) : Option (Nat × Nat) :=
  if decide (k = 0) || !(chSat line (k - 1) isPyWord) then
    deityTitles.findSome? (fun d1 =>
      if occursAt d1 line k && chAt line (k + d1.length) ',' then
        if 1 ≤ wsRunAt line (k + d1.length + 1) then
          match deityTitles.find? (fun d2 =>
              occursAt d2 line (k + d1.length + 1 + wsRunAt line (k + d1.length + 1)) &&
              !(chSat line (k + d1.length + 1 + wsRunAt line (k + d1.length + 1) + d2.length)
                isPyWord)) with
          | some _ => some (k + d1.length, k + d1.length + 1 + wsRunAt line (k + d1.length + 1))
          | none => none
        else none
      else none)
  else none

/-- `_DEITY_APPOS_PAT.match(current)`. -/
def m16Match (line : Line) : Option (Nat × Nat) :=
  (List.range line.length).findSome? (m16TryAt line)

theorem m16TryAt_spec (line : Line) (k : Nat) (cg : Nat × Nat)
    (h : m16TryAt line k = some cg) : 1 ≤ cg.2 ∧ 1 ≤ line.length := by
  unfold m16TryAt at h
  by_cases hb : (decide (k = 0) || !(chSat line (k - 1) isPyWord)) = true
  · rw [if_pos hb] at h
    obtain ⟨d1, _, hd1⟩ := List.exists_of_findSome?_eq_some h
    by_cases h1 : (occursAt d1 line k && chAt line (k + d1.length) ',') = true
    · rw [if_pos h1] at hd1
      by_cases h2 : (1 ≤ wsRunAt line (k + d1.length + 1))
      · rw [if_pos h2] at hd1
        have hcomma := ((Bool.and_eq_true _ _).mp h1).2
        have hlen : k + d1.length + 1 ≤ line.length :=
          occursAt_le [','] line (k + d1.length) (by decide) hcomma
        cases hfind : deityTitles.find? (fun d2 =>
            occursAt d2 line (k + d1.length + 1 + wsRunAt line (k + d1.length + 1)) &&
            !(chSat line (k + d1.length + 1 + wsRunAt line (k + d1.length + 1) + d2.length)
              isPyWord)) with
        | some d2 =>
          rw [hfind] at hd1
          cases hd1
          simp only []
          omega
        | none => rw [hfind] at hd1; cases hd1
      · rw [if_neg h2] at hd1; cases hd1
    · rw [if_neg h1] at hd1; cases hd1
  · rw [if_neg hb] at h; cases h

theorem m16Match_spec (line : Line) (cg : Nat × Nat) (h : m16Match line = some cg) :
    1 ≤ cg.2 ∧ 1 ≤ line.length := by
  unfold m16Match at h
  obtain ⟨k, _, hk⟩ := List.exists_of_findSome?_eq_some h
  exact m16TryAt_spec line k cg hk

/-- The `while changed` loop of M16: each match emits
`m.group(1) + ','` and continues on `m.group(2)`. -/
def m16Loop (cur : Line) : List Line :=
  match hm : m16Match cur with
  | some cg => (cur.take cg.1 ++ [',']) :: m16Loop (cur.drop cg.2)
  | none => [cur]
termination_by cur.length
decreasing_by
  have := m16Match_spec cur cg hm
  have h2 : (cur.drop cg.2).length = cur.length - cg.2 := by simp
  omega

def m16Line (line : Line) : List Line :=
  if line.length < 30 then [line] else m16Loop line

/-- `m16_deity_appositive(lines)`. -/
def m16_deity_appositive (lines : List Line) : List Line :=
  (lines.map m16Line).flatten

-- ============================================================
-- Pipeline (senseline_reformat_v6.py:704-729)
-- ============================================================

/-- `process_verse(content_lines)`: the 17 passes in their fixed order,
with M10 run at threshold 70. -/
def process_verse (content : List Line) : List Line :=
  m16_deity_appositive (m15_passive_prep (m14_inverted_conditional (m13_end_of_gerund
    (m12_in_gerund (m11_speech_frame (m10_split_long (m9_subject_predicate
      (m8_and_pronoun (m7_speech_content (m6_according_to (m5_vocative (m4_insomuch
        (m3_yea_trailing (m2_behold_hinge (m1_aictp (m0_emdash_trailing content))))))))))
      70))))))

-- ============================================================
-- Claim C6: no-op on short input
-- ============================================================

/-- The smallest line length on which any pass can act at all: M0's
pattern `^(.+)--([\w]+[,;.]?)$` needs 4 characters, and every other
pass needs more (either an explicit length guard of at least 30, or a
pattern whose parts add up to more than 4 characters). -/
def minTriggerLen : Nat := 4

theorem flattenMap_id (f : Line → List Line) (lines : List Line)
    (h : ∀ l ∈ lines, f l = [l]) : (lines.map f).flatten = lines := by
  induction lines with
  | nil => rfl
  | cons a rest ih =>
    simp only [List.map_cons, List.flatten_cons, h a (by simp)]
    rw [ih (fun l hl => h l (by simp [hl]))]
    rfl

theorem m0TailOk_len (t : Line) (h : m0TailOk t = true) : 1 ≤ t.length := by
  cases t with
  | nil => simp [m0TailOk] at h
  | cons a as => simp

theorem m0Match_none_short (l : Line) (h : l.length < 4) : m0Match l = none := by
  unfold m0Match
  rw [List.find?_eq_none]
  intro q _ hc
  unfold m0CondAt at hc
  simp only [Bool.and_eq_true, decide_eq_true_eq] at hc
  obtain ⟨⟨h1, h2⟩, h3⟩ := hc
  have h4 := occursAt_le _ l q (by decide) h2
  have h5 := m0TailOk_len _ h3
  have h6 : (l.drop (q + 2)).length = l.length - (q + 2) := by simp
  have h7 : (("--".toList) : Line).length = 2 := by decide
  omega

theorem m0Go_short : ∀ (rest : List Line) (cur : Line), cur.length < 4 →
    (∀ l ∈ rest, l.length < 4) → m0Go cur rest = cur :: rest := by
  intro rest
  induction rest with
  | nil => intro cur _ _; rfl
  | cons n rs ih =>
    intro cur hc hr
    unfold m0Go
    rw [m0Match_none_short cur hc]
    rw [ih n (hr n (by simp)) (fun l hl => hr l (by simp [hl]))]

theorem m0_short (lines : List Line) (h : ∀ l ∈ lines, l.length < 4) :
    m0_emdash_trailing lines = lines := by
  cases lines with
  | nil => rfl
  | cons l rest =>
    unfold m0_emdash_trailing
    exact m0Go_short rest l (h l (by simp)) (fun x hx => h x (by simp [hx]))

theorem m1Line_short (l : Line) (h : l.length < 4) : m1Line l = [l] := by
  unfold m1Line
  have hf : aictpFormulas.find? (fun f => prefixAt f l && decide (42 < l.length)) = none := by
    rw [List.find?_eq_none]
    intro f _ hc
    simp only [Bool.and_eq_true, decide_eq_true_eq] at hc
    omega
  rw [hf]
  have h40 : decide (40 < l.length) = false := by
    simp only [decide_eq_false_iff_not]
    omega
  simp [h40]

theorem m1_short (lines : List Line) (h : ∀ l ∈ lines, l.length < 4) :
    m1_aictp lines = lines :=
  flattenMap_id _ _ (fun l hl => m1Line_short l (h l hl))

theorem m2Match_none_short (l : Line) (h : l.length < 4) : m2Match l = none := by
  unfold m2Match
  rw [List.find?_eq_none]
  intro a ha hc
  unfold m2CondAt at hc
  simp only [Bool.and_eq_true, decide_eq_true_eq] at hc
  have := List.mem_range.mp ha
  omega

theorem m2_short (lines : List Line) (h : ∀ l ∈ lines, l.length < 4) :
    m2_behold_hinge lines = lines := by
  refine flattenMap_id _ _ (fun l hl => ?_)
  unfold m2Line
  rw [m2Match_none_short l (h l hl)]

theorem m3CommaMatch_none_short (l : Line) (h : l.length < 4) : m3CommaMatch l = none := by
  unfold m3CommaMatch
  rw [List.find?_eq_none]
  intro a ha hc
  unfold m3CommaCondAt at hc
  simp only [Bool.and_eq_true, decide_eq_true_eq] at hc
  have := List.mem_range.mp ha
  omega

theorem m3DashMatch_none_short (l : Line) (h : l.length < 4) : m3DashMatch l = none := by
  unfold m3DashMatch m3DashHead
  have hocc : occursAt ("\x7b10".toList) l 1 = false := by
    by_cases hx : occursAt ("\x7b10".toList) l 1 = true
    · have := occursAt_le _ l 1 (by decide) hx
      have h3 : (("\x7b10".toList) : Line).length = 3 := by decide
      omega
    · simpa using hx
  rw [hocc]
  rfl

theorem m3_short (lines : List Line) (h : ∀ l ∈ lines, l.length < 4) :
    m3_yea_trailing lines = lines := by
  refine flattenMap_id _ _ (fun l hl => ?_)
  unfold m3Line
  rw [m3CommaMatch_none_short l (h l hl), m3DashMatch_none_short l (h l hl)]

theorem m4Match_none_short (l : Line) (h : l.length < 4) : m4Match l = none := by
  unfold m4Match
  rw [List.find?_eq_none]
  intro a ha hc
  unfold m4CondAt at hc
  simp only [Bool.and_eq_true, decide_eq_true_eq] at hc
  have := List.mem_range.mp ha
  omega

theorem m4_short (lines : List Line) (h : ∀ l ∈ lines, l.length < 4) :
    m4_insomuch lines = lines := by
  refine flattenMap_id _ _ (fun l hl => ?_)
  unfold m4Line
  rw [m4Match_none_short l (h l hl)]

theorem m5_short (lines : List Line) (h : ∀ l ∈ lines, l.length < 4) :
    m5_vocative lines = lines := by
  refine flattenMap_id _ _ (fun l hl => ?_)
  unfold m5Line
  rw [if_neg (by have := h l hl; omega)]

theorem m6_short (lines : List Line) (h : ∀ l ∈ lines, l.length < 4) :
    m6_according_to lines = lines := by
  refine flattenMap_id _ _ (fun l hl => ?_)
  unfold m6Line
  rw [if_neg (by have := h l hl; omega)]

theorem m7_short (lines : List Line) (h : ∀ l ∈ lines, l.length < 4) :
    m7_speech_content lines = lines := by
  refine flattenMap_id _ _ (fun l hl => ?_)
  unfold m7Line
  rw [if_pos (by have := h l hl; omega)]

theorem m8_short (lines : List Line) (h : ∀ l ∈ lines, l.length < 4) :
    m8_and_pronoun lines = lines := by
  refine flattenMap_id _ _ (fun l hl => ?_)
  unfold m8Line
  rw [if_neg (by have := h l hl; omega)]

theorem m9_short (lines : List Line) (h : ∀ l ∈ lines, l.length < 4) :
    m9_subject_predicate lines = lines := by
  refine flattenMap_id _ _ (fun l hl => ?_)
  unfold m9Line
  rw [if_pos (by have := h l hl; omega)]

theorem m10_short_all (lines : List Line) (h : ∀ l ∈ lines, l.length ≤ 70) :
    m10_split_long lines 70 = lines := by
  induction lines with
  | nil => exact m10_nil 70
  | cons a rest ih =>
    rw [m10_split_long]
    have ha : a.length ≤ 70 := h a (by simp)
    simp only [ha, if_true, if_pos ha]
    rw [ih (fun l hl => h l (by simp [hl]))]
    rfl

theorem m11Match_none_short (l : Line) (h : l.length < 12) : m11Match l = none := by
  unfold m11Match
  rw [List.findSome?_eq_none_iff]
  intro s _
  by_cases h1 : 1 ≤ s
  · rw [if_pos h1]
    rw [List.findSome?_eq_none_iff]
    intro c _
    have ht : m11Tail l c = none := by
      unfold m11Tail
      rw [if_neg]
      simp only [Bool.and_eq_true, decide_eq_true_eq, not_and]
      intro _
      omega
    rw [ht]
    rfl
  · rw [if_neg h1]

theorem m11_short (lines : List Line) (h : ∀ l ∈ lines, l.length < 4) :
    m11_speech_frame lines = lines := by
  refine flattenMap_id _ _ (fun l hl => ?_)
  unfold m11Line
  rw [m11Match_none_short l (by have := h l hl; omega)]

theorem m12Match_none_short (l : Line) (h : l.length < 4) : m12Match l = none := by
  unfold m12Match
  rw [List.find?_eq_none]
  intro a ha hc
  unfold m12CondAt at hc
  simp only [Bool.and_eq_true, decide_eq_true_eq] at hc
  have := List.mem_range.mp ha
  omega

theorem m12_short (lines : List Line) (h : ∀ l ∈ lines, l.length < 4) :
    m12_in_gerund lines = lines := by
  refine flattenMap_id _ _ (fun l hl => ?_)
  unfold m12Line
  rw [m12Match_none_short l (h l hl)]

theorem m13Match_none_short (l : Line) (h : l.length < 4) : m13Match l = none := by
  unfold m13Match
  rw [List.find?_eq_none]
  intro d _ hc
  unfold m13CondAt at hc
  simp only [Bool.and_eq_true, decide_eq_true_eq] at hc
  have h2 := occursAt_le _ l d (by decide) hc.1.1.1.1.2
  have h3 : (("made an end".toList) : Line).length = 11 := by decide
  omega

theorem m13_short (lines : List Line) (h : ∀ l ∈ lines, l.length < 4) :
    m13_end_of_gerund lines = lines := by
  refine flattenMap_id _ _ (fun l hl => ?_)
  unfold m13Line
  rw [m13Match_none_short l (h l hl)]

theorem m14_short (lines : List Line) (h : ∀ l ∈ lines, l.length < 4) :
    m14_inverted_conditional lines = lines := by
  refine flattenMap_id _ _ (fun l hl => ?_)
  unfold m14Line
  rw [if_pos (by have := h l hl; omega)]

theorem m15_short (lines : List Line) (h : ∀ l ∈ lines, l.length < 4) :
    m15_passive_prep lines = lines := by
  refine flattenMap_id _ _ (fun l hl => ?_)
  unfold m15Line
  rw [if_pos (by have := h l hl; omega)]

theorem m16_short (lines : List Line) (h : ∀ l ∈ lines, l.length < 4) :
    m16_deity_appositive lines = lines := by
  refine flattenMap_id _ _ (fun l hl => ?_)
  unfold m16Line
  rw [if_pos (by have := h l hl; omega)]

/-- C6: no-op on short input — a verse all of whose content lines are
shorter than every pass's minimum trigger threshold (the smallest
possible trigger over the 17 passes is `minTriggerLen = 4` characters,
set by M0) is returned unchanged by the entire pipeline
`process_verse` (M0 through M16). -/
theorem c6_pipeline_noop (lines : List Line)
    (h : ∀ l ∈ lines, l.length < minTriggerLen) : process_verse lines = lines := by
  have h4 : ∀ l ∈ lines, l.length < 4 := h
  unfold process_verse
  rw [m0_short lines h4, m1_short lines h4, m2_short lines h4, m3_short lines h4,
    m4_short lines h4, m5_short lines h4, m6_short lines h4, m7_short lines h4,
    m8_short lines h4, m9_short lines h4,
    m10_short_all lines (fun l hl => by have := h4 l hl; omega),
    m11_short lines h4, m12_short lines h4, m13_short lines h4, m14_short lines h4,
    m15_short lines h4, m16_short lines h4]

theorem c6_pipeline_noop_witness :
    process_verse ["ab".toList, "c.".toList, "d".toList] =
      ["ab".toList, "c.".toList, "d".toList] :=
  c6_pipeline_noop _ (by decide)

-- ============================================================
-- Claim C9: word-content preservation.  Helper layer.
-- ============================================================

theorem wordChars_append (l1 l2 : Line) :
    wordChars (l1 ++ l2) = wordChars l1 ++ wordChars l2 :=
  List.filter_append ..

theorem wordChars_take_drop (l : Line) (n : Nat) :
    wordChars l = wordChars (l.take n) ++ wordChars (l.drop n) := by
  rw [← wordChars_append, List.take_append_drop]

theorem isPySpace_not_word (c : Char) (h : isPySpace c = true) : isWordChar c = false := by
  unfold isPySpace at h
  simp only [Bool.or_eq_true, beq_iff_eq] at h
  rcases h with ((((h | h) | h) | h) | h) | h <;> subst h <;> decide

theorem wordChars_takeWhile_space (l : Line) (p : Char → Bool)
    (hp : ∀ c, p c = true → isWordChar c = false) :
    wordChars (l.takeWhile p) = [] := by
  apply List.filter_eq_nil_iff.mpr
  intro a ha
  have := List.mem_takeWhile_imp ha
  simp [hp a this]

theorem wordChars_dropWhile (l : Line) (p : Char → Bool)
    (hp : ∀ c, p c = true → isWordChar c = false) :
    wordChars (l.dropWhile p) = wordChars l := by
  conv_rhs => rw [← List.takeWhile_append_dropWhile (p := p) (l := l)]
  rw [wordChars_append, wordChars_takeWhile_space l p hp]
  rfl

theorem wordChars_reverse (l : Line) : wordChars l.reverse = (wordChars l).reverse :=
  List.filter_reverse ..

theorem wordChars_rstrip_general (l : Line) (p : Char → Bool)
    (hp : ∀ c, p c = true → isWordChar c = false) :
    wordChars ((l.reverse.dropWhile p).reverse) = wordChars l := by
  rw [wordChars_reverse, wordChars_dropWhile _ p hp, wordChars_reverse, List.reverse_reverse]

theorem wordChars_rstripWs (l : Line) : wordChars (rstripWs l) = wordChars l :=
  wordChars_rstrip_general l isPySpace isPySpace_not_word

theorem wordChars_lstripWs (l : Line) : wordChars (lstripWs l) = wordChars l :=
  wordChars_dropWhile l isPySpace isPySpace_not_word

theorem commaSpace_not_word (c : Char) (h : (c == ',' || c == ' ') = true) :
    isWordChar c = false := by
  simp only [Bool.or_eq_true, beq_iff_eq] at h
  rcases h with h | h <;> subst h <;> decide

theorem wordChars_rstripCommaSpace (l : Line) :
    wordChars (rstripCommaSpace l) = wordChars l :=
  wordChars_rstrip_general l _ commaSpace_not_word

/-- Splitting a line at `[a, b)` whose middle slice carries no word
characters preserves the word-character sequence. -/
theorem wordChars_split (l : Line) (a b : Nat) (hab : a ≤ b)
    (hmid : wordChars (pySlice l a b) = []) :
    wordChars l = wordChars (l.take a) ++ wordChars (l.drop b) := by
  rw [wordChars_take_drop l a]
  congr 1
  have hd : (l.drop a).drop (b - a) = l.drop b := by
    rw [List.drop_drop]
    congr 1
    omega
  have hsplit : l.drop a = pySlice l a b ++ l.drop b := by
    unfold pySlice
    conv_lhs => rw [← List.take_append_drop (b - a) (l.drop a)]
    rw [hd]
  rw [hsplit, wordChars_append, hmid]
  rfl

theorem wordChars_ws_take (l : Line) (a j : Nat) (hj : j ≤ wsRunAt l a) :
    wordChars ((l.drop a).take j) = [] := by
  unfold wsRunAt at hj
  have h1 : (l.drop a).take j = ((l.drop a).takeWhile isPySpace).take j := by
    conv_lhs => rw [← List.takeWhile_append_dropWhile (p := isPySpace) (l := l.drop a)]
    rw [List.take_append_eq_append_take]
    have : j - ((l.drop a).takeWhile isPySpace).length = 0 := by omega
    rw [this]
    simp
  rw [h1]
  apply List.filter_eq_nil_iff.mpr
  intro c hc
  have := List.mem_takeWhile_imp (List.mem_of_mem_take hc)
  simp [isPySpace_not_word c this]

theorem prefixAt_append_self (x y : Line) : prefixAt x (x ++ y) = true := by
  induction x with
  | nil => rfl
  | cons a as ih => simp [prefixAt, ih]

theorem occursAt_decomp (pat l : Line) (p : Nat) (h : occursAt pat l p = true) :
    l.drop p = pat ++ l.drop (p + pat.length) := by
  have ht := prefixAt_take pat (l.drop p) h
  have hd : (l.drop p).drop pat.length = l.drop (p + pat.length) := by
    rw [List.drop_drop]
  conv_lhs => rw [← List.take_append_drop pat.length (l.drop p)]
  rw [ht, hd]

/-- A separator made of a non-word literal followed by (part of) a
whitespace run carries no word characters. -/
theorem wordChars_sep_slice (pat l : Line) (a j : Nat) (hocc : occursAt pat l a = true)
    (hpat : wordChars pat = []) (hj : j ≤ wsRunAt l (a + pat.length)) :
    wordChars (pySlice l a (a + pat.length + j)) = [] := by
  unfold pySlice
  have hb : a + pat.length + j - a = pat.length + j := by omega
  rw [hb, occursAt_decomp pat l a hocc, List.take_append_eq_append_take]
  have h1 : pat.take (pat.length + j) = pat := List.take_of_length_le (by omega)
  have h2 : pat.length + j - pat.length = j := by omega
  rw [h1, h2, wordChars_append, hpat, wordChars_ws_take l (a + pat.length) j hj]
  rfl

theorem pySlice_self (l : Line) (a : Nat) : pySlice l a a = [] := by
  unfold pySlice
  simp

theorem wordChars_ws_slice (l : Line) (a j : Nat) (hj : j ≤ wsRunAt l a) :
    wordChars (pySlice l a (a + j)) = [] := by
  unfold pySlice
  have h : a + j - a = j := by omega
  rw [h]
  exact wordChars_ws_take l a j hj

theorem wordChars_append_sep (x ins : Line) (h : wordChars ins = []) :
    wordChars (x ++ ins) = wordChars x := by
  rw [wordChars_append, h]
  simp

/-- Workhorse for the per-pass word-preservation lemmas: a two-line
output whose pieces carry the word characters of `l[:a]` and `l[b:]`,
with nothing but separator characters between `a` and `b`. -/
theorem wc_split_pair (l : Line) (a b : Nat) (left right : Line) (hab : a ≤ b)
    (hmid : wordChars (pySlice l a b) = [])
    (hleft : wordChars left = wordChars (l.take a))
    (hright : wordChars right = wordChars (l.drop b)) :
    wordChars ([left, right] : List Line).flatten = wordChars l := by
  have hfl : ([left, right] : List Line).flatten = left ++ right := by simp
  rw [hfl, wordChars_append, hleft, hright, ← wordChars_split l a b hab hmid]

theorem wc_single (l : Line) : wordChars ([l] : List Line).flatten = wordChars l := by
  simp

theorem wc_pass (f : Line → List Line)
    (h : ∀ l : Line, wordChars (f l).flatten = wordChars l) :
    ∀ lines : List Line, wordChars ((lines.map f).flatten).flatten = wordChars lines.flatten := by
  intro lines
  induction lines with
  | nil => rfl
  | cons a rest ih =>
    simp only [List.map_cons, List.flatten_cons, List.flatten_append, wordChars_append]
    rw [h a, ih]

theorem wc_m1Line (l : Line) : wordChars (m1Line l).flatten = wordChars l := by
  cases hf : aictpFormulas.find? (fun f => prefixAt f l && decide (42 < l.length)) with
  | some f =>
    simp only [m1Line, hf]
    have hp : prefixAt f l = true := by
      have h1 := List.find?_some hf
      simp only [Bool.and_eq_true] at h1
      exact h1.1
    have htake : l.take f.length = f := prefixAt_take f l hp
    refine wc_split_pair l f.length f.length _ _ (Nat.le_refl _) ?_ ?_ ?_
    · rw [pySlice_self]
      rfl
    · rw [wordChars_rstripWs, htake]
    · rfl
  | none =>
    simp only [m1Line, hf]
    by_cases hc : (prefixAt ("And it came to pass ".toList) l &&
        !(prefixAt ("And it came to pass that".toList) l) && decide (40 < l.length)) = true
    · rw [if_pos hc]
      have hp : prefixAt ("And it came to pass ".toList) l = true := by
        simp only [Bool.and_eq_true] at hc
        exact hc.1.1
      have htake : l.take 20 = "And it came to pass ".toList := by
        have h1 := prefixAt_take _ l hp
        have h2 : (("And it came to pass ".toList) : Line).length = 20 := by decide
        rw [h2] at h1
        exact h1
      refine wc_split_pair l 20 20 _ _ (Nat.le_refl _) ?_ ?_ ?_
      · rw [pySlice_self]
        rfl
      · rw [htake]
        decide
      · rfl
    · rw [if_neg hc]
      exact wc_single l

theorem wc_m2Line (l : Line) : wordChars (m2Line l).flatten = wordChars l := by
  cases hm : m2Match l with
  | none =>
    simp only [m2Line, hm]
    exact wc_single l
  | some a =>
    cases hs : m2SepAt l a with
    | none =>
      simp only [m2Line, hm, hs]
      exact wc_single l
    | some sg =>
      by_cases hlen : 15 ≤ a ∧ 15 ≤ l.length - sg.2
      · simp only [m2Line, hm, hs, if_pos hlen]
        unfold m2SepAt at hs
        by_cases h1 : (chAt l a ',' && decide (1 ≤ wsRunAt l (a + 1))) = true
        · rw [if_pos h1] at hs
          cases hs
          have hocc : occursAt ([','] : Line) l a = true :=
            ((Bool.and_eq_true _ _).mp h1).1
          refine wc_split_pair l a (a + 1 + wsRunAt l (a + 1)) _ _ (by omega) ?_ ?_ ?_
          · have hss := wordChars_sep_slice [','] l a (wsRunAt l (a + 1)) hocc (by decide)
              (by simp)
            simpa using hss
          · exact wordChars_append_sep _ _
              (show wordChars ([','] : Line) = [] from by decide)
          · rfl
        · rw [if_neg h1] at hs
          by_cases h2 : (chAt l a ';' && decide (1 ≤ wsRunAt l (a + 1))) = true
          · rw [if_pos h2] at hs
            cases hs
            have hocc : occursAt ([';'] : Line) l a = true :=
              ((Bool.and_eq_true _ _).mp h2).1
            refine wc_split_pair l a (a + 1 + wsRunAt l (a + 1)) _ _ (by omega) ?_ ?_ ?_
            · have hss := wordChars_sep_slice [';'] l a (wsRunAt l (a + 1)) hocc (by decide)
                (by simp)
              simpa using hss
            · exact wordChars_append_sep _ _
                (show wordChars ([';'] : Line) = [] from by decide)
            · rfl
          · rw [if_neg h2] at hs
            by_cases h3 : occursAt ("--".toList) l a = true
            · rw [if_pos h3] at hs
              cases hs
              refine wc_split_pair l a (a + 2 + wsRunAt l (a + 2)) _ _ (by omega) ?_ ?_ ?_
              · have hss := wordChars_sep_slice ("--".toList) l a (wsRunAt l (a + 2)) h3
                  (by decide) (by simp)
                have h4 : ("--".toList : Line).length = 2 := by decide
                rw [h4] at hss
                exact hss
              · exact wordChars_append_sep _ _
                  (show wordChars ("--".toList : Line) = [] from by decide)
              · rfl
            · rw [if_neg h3] at hs
              cases hs
      · simp only [m2Line, hm, hs, if_neg hlen]
        exact wc_single l

theorem prefixAt_take_mono : ∀ (pat x : Line) (k : Nat), prefixAt pat x = true →
    prefixAt (pat.take k) x = true := by
  intro pat
  induction pat with
  | nil => intro x k _; simp [List.take_nil]; rfl
  | cons a as ih =>
    intro x k h
    cases x with
    | nil => simp [prefixAt] at h
    | cons c cs =>
      cases k with
      | zero => rfl
      | succ k =>
        simp only [List.take, prefixAt, Bool.and_eq_true] at h ⊢
        exact ⟨h.1, ih cs k h.2⟩

theorem occursAt_take_pat (pat l : Line) (p k : Nat) (h : occursAt pat l p = true) :
    occursAt (pat.take k) l p = true :=
  prefixAt_take_mono pat (l.drop p) k h

theorem occursAt_shift (pat : Line) (l : Line) (p i : Nat) (hi : i ≤ pat.length)
    (h : occursAt pat l p = true) : occursAt (pat.drop i) l (p + i) = true := by
  unfold occursAt
  have hdec := occursAt_decomp pat l p h
  have hstep : l.drop (p + i) = pat.drop i ++ l.drop (p + pat.length) := by
    have h1 : l.drop (p + i) = (l.drop p).drop i := by
      rw [List.drop_drop]
    rw [h1, hdec, List.drop_append_of_le_length hi]
  rw [hstep]
  exact prefixAt_append_self _ _

theorem wc_m3Line (l : Line) : wordChars (m3Line l).flatten = wordChars l := by
  cases hm : m3CommaMatch l with
  | some a =>
    simp only [m3Line, hm]
    have hc := List.find?_some hm
    unfold m3CommaCondAt at hc
    simp only [Bool.and_eq_true, decide_eq_true_eq] at hc
    have hocc : occursAt ([','] : Line) l a = true := hc.1.1.1.1.2
    refine wc_split_pair l a (a + 1 + wsRunAt l (a + 1)) _ _ (by omega) ?_ ?_ ?_
    · have hss := wordChars_sep_slice [','] l a (wsRunAt l (a + 1)) hocc (by decide)
        (by simp)
      simpa using hss
    · exact wordChars_append_sep _ _ (show wordChars ([','] : Line) = [] from by decide)
    · rfl
  | none =>
    cases hd : m3DashMatch l with
    | some kg =>
      simp only [m3Line, hm, hd]
      cases hh : m3DashHead l with
      | none =>
        simp only [m3DashMatch, hh] at hd
        exact Option.noConfusion hd
      | some k =>
        simp only [m3DashMatch, hh] at hd
        by_cases h1 : occursAt ("--".toList) l k = true
        · rw [if_pos h1] at hd
          by_cases h2 : (occursAt ("yea,".toList) l (k + 2 + wsRunAt l (k + 2)) &&
              decide (1 ≤ wsRunAt l (k + 2 + wsRunAt l (k + 2) + 4)) &&
              decide (k + 2 + wsRunAt l (k + 2) + 4 + 2 ≤ l.length)) = true
          · rw [if_pos h2] at hd
            cases hd
            refine wc_split_pair l k (k + 2 + wsRunAt l (k + 2)) _ _ (by omega) ?_ ?_ ?_
            · have hss := wordChars_sep_slice ("--".toList) l k (wsRunAt l (k + 2)) h1
                (by decide) (by simp)
              have h4 : ("--".toList : Line).length = 2 := by decide
              rw [h4] at hss
              exact hss
            · exact wordChars_append_sep _ _
                (show wordChars ("--".toList : Line) = [] from by decide)
            · rfl
          · rw [if_neg h2] at hd; cases hd
        · rw [if_neg h1] at hd; cases hd
    | none =>
      simp only [m3Line, hm, hd]
      exact wc_single l

theorem wc_m4Line (l : Line) : wordChars (m4Line l).flatten = wordChars l := by
  cases hm : m4Match l with
  | some a =>
    simp only [m4Line, hm]
    refine wc_split_pair l a (a + wsRunAt l a) _ _ (by omega) ?_ rfl rfl
    exact wordChars_ws_slice l a (wsRunAt l a) (Nat.le_refl _)
  | none =>
    simp only [m4Line, hm]
    exact wc_single l

theorem m5TryAlt_spec (l : Line) (b : Nat) (alt : Line) (pg : Nat × Nat)
    (h : m5TryAlt l b alt = some pg) : ∃ j, j ≤ wsRunAt l pg.1 ∧ pg.2 = pg.1 + j := by
  unfold m5TryAlt at h
  by_cases h1 : occursAtCI alt l b = true
  · rw [if_pos h1] at h
    by_cases h2 : (chAt l (b + alt.length) ',' || chAt l (b + alt.length) '!') = true
    · rw [if_pos h2] at h
      by_cases h3 : (decide (1 ≤ wsRunAt l (b + alt.length + 1)) &&
          decide (b + alt.length + 1 + 16 ≤ l.length)) = true
      · rw [if_pos h3] at h
        cases h
        exact ⟨_, Nat.min_le_left _ _, rfl⟩
      · rw [if_neg h3] at h; cases h
    · rw [if_neg h2] at h
      by_cases h4 : (decide (1 ≤ wsRunAt l (b + alt.length)) &&
          decide (b + alt.length + 16 ≤ l.length)) = true
      · rw [if_pos h4] at h
        cases h
        exact ⟨_, Nat.min_le_left _ _, rfl⟩
      · rw [if_neg h4] at h; cases h
  · rw [if_neg h1] at h; cases h

theorem m5Match_spec (l : Line) (pg : Nat × Nat) (h : m5Match l = some pg) :
    ∃ j, j ≤ wsRunAt l pg.1 ∧ pg.2 = pg.1 + j := by
  unfold m5Match at h
  by_cases h1 : (occursAtCI (['O'] : Line) l 0 && decide (1 ≤ runCommaSpaceAt l 1)) = true
  · rw [if_pos h1] at h
    obtain ⟨alt, _, halt⟩ := List.exists_of_findSome?_eq_some h
    exact m5TryAlt_spec l _ alt pg halt
  · rw [if_neg h1] at h; cases h

theorem wc_m5Line (l : Line) : wordChars (m5Line l).flatten = wordChars l := by
  unfold m5Line
  by_cases hl : 40 < l.length
  · rw [if_pos hl]
    cases hm : m5Match l with
    | some pg =>
      obtain ⟨j, hj, hpg⟩ := m5Match_spec l pg hm
      show wordChars ([l.take pg.1, l.drop pg.2] : List Line).flatten = wordChars l
      rw [hpg]
      refine wc_split_pair l pg.1 (pg.1 + j) _ _ (by omega) ?_ rfl rfl
      exact wordChars_ws_slice l pg.1 j hj
    | none => exact wc_single l
  · rw [if_neg hl]
    exact wc_single l

theorem wc_m6Line (l : Line) : wordChars (m6Line l).flatten = wordChars l := by
  unfold m6Line
  by_cases hl : 58 < l.length
  · rw [if_pos hl]
    cases hm : m6Match l with
    | some a =>
      have hc := List.find?_some hm
      unfold m6CondAt at hc
      simp only [Bool.and_eq_true, decide_eq_true_eq] at hc
      have hocc : occursAt ([','] : Line) l a = true := hc.1.1.1.1.2
      refine wc_split_pair l a (a + 1 + wsRunAt l (a + 1)) _ _ (by omega) ?_ ?_ ?_
      · have hss := wordChars_sep_slice [','] l a (wsRunAt l (a + 1)) hocc (by decide)
          (by simp)
        simpa using hss
      · exact wordChars_append_sep _ _ (show wordChars ([','] : Line) = [] from by decide)
      · rfl
    | none => exact wc_single l
  · rw [if_neg hl]
    exact wc_single l

theorem m7FindSplit_spec (l : Line) (lr : Line × Line) (h : m7FindSplit l = some lr) :
    ∃ idx, lr.1 = rstripCommaSpace (l.take idx) ∧ lr.2 = l.drop idx := by
  unfold m7FindSplit at h
  obtain ⟨cwc, _, hc⟩ := List.exists_of_findSome?_eq_some h
  cases hs : m7Search l cwc.1 with
  | none => rw [hs] at hc; cases hc
  | some idx =>
    simp only [hs] at hc
    by_cases h1 : (cwc.2 && !(contentAfterThat.any (fun s => prefixAt s (l.drop (idx + 5))))) = true
    · rw [if_pos h1] at hc
      exact Option.noConfusion hc
    · rw [if_neg h1] at hc
      by_cases h2 : 18 ≤ (rstripCommaSpace (l.take idx)).length ∧ 18 ≤ (l.drop idx).length
      · rw [if_pos h2] at hc
        cases hc
        exact ⟨idx, rfl, rfl⟩
      · rw [if_neg h2] at hc
        exact Option.noConfusion hc

theorem wc_m7Line (l : Line) : wordChars (m7Line l).flatten = wordChars l := by
  unfold m7Line
  by_cases hl : l.length < 48
  · rw [if_pos hl]
    exact wc_single l
  · rw [if_neg hl]
    cases hm : m7FindSplit l with
    | some lr =>
      obtain ⟨idx, hl1, hl2⟩ := m7FindSplit_spec l lr hm
      refine wc_split_pair l idx idx _ _ (Nat.le_refl _) ?_ ?_ ?_
      · rw [pySlice_self]
        rfl
      · rw [hl1, wordChars_rstripCommaSpace]
      · rw [hl2]
    | none => exact wc_single l

theorem wc_m8Line (l : Line) : wordChars (m8Line l).flatten = wordChars l := by
  unfold m8Line
  by_cases hl : 45 ≤ l.length ∧ l.length ≤ 70
  · rw [if_pos hl]
    by_cases hc : 2 ≤ countCommaAnd l
    · rw [if_pos hc]
      exact wc_single l
    · rw [if_neg hc]
      cases hm : m8FindMatch l with
      | some p =>
        by_cases hg : 18 ≤ p ∧ 18 ≤ l.length - p - 1
        · simp only [if_pos hg]
          have hocc := m8FindMatch_occurs l p hm
          have hsh := occursAt_shift (", and ".toList) l p 1 (by decide) hocc
          have hsp : occursAt ([' '] : Line) l (p + 1) = true := by
            have := occursAt_take_pat _ l (p + 1) 1 hsh
            have he : (((", and ".toList).drop 1).take 1 : Line) = [' '] := by decide
            rw [he] at this
            exact this
          have hss := wordChars_sep_slice [' '] l (p + 1) 0 hsp (by decide) (by omega)
          refine wc_split_pair l (p + 1) (p + 2) _ _ (by omega) ?_ rfl rfl
          have he2 : p + 1 + ([' '] : Line).length + 0 = p + 2 := by simp
          rw [he2] at hss
          exact hss
        · simp only [if_neg hg]
          exact wc_single l
      | none => exact wc_single l
  · rw [if_neg hl]
    exact wc_single l

theorem wc_m9Line (l : Line) : wordChars (m9Line l).flatten = wordChars l := by
  unfold m9Line
  by_cases hl : l.length ≤ 70
  · rw [if_pos hl]
    exact wc_single l
  · rw [if_neg hl]
    cases hm : m9FirstSplit (finditer (modalMatchAt l) l.length) l with
    | some pos =>
      refine wc_split_pair l pos pos _ _ (Nat.le_refl _) ?_ ?_ rfl
      · rw [pySlice_self]
        rfl
      · rw [wordChars_rstripWs]
    | none => exact wc_single l

theorem m10Measure_cons (l : Line) (rest : List Line) :
    m10Measure (l :: rest) = l.length + 1 + m10Measure rest := by
  simp [m10Measure]

theorem m10Measure_single (l : Line) : m10Measure [l] = l.length + 1 := by
  simp [m10Measure]

theorem wc_m10_aux : ∀ (n : Nat) (lines : List Line) (th : Nat), m10Measure lines ≤ n →
    wordChars (m10_split_long lines th).flatten = wordChars lines.flatten := by
  intro n
  induction n with
  | zero =>
    intro lines th h
    cases lines with
    | nil => rw [m10_nil]
    | cons line rest =>
      exfalso
      rw [m10Measure_cons] at h
      omega
  | succ n ih =>
    intro lines th h
    cases lines with
    | nil => rw [m10_nil]
    | cons line rest =>
      have hrest : m10Measure rest ≤ n := by
        rw [m10Measure_cons] at h
        omega
      have hline : line.length ≤ n := by
        rw [m10Measure_cons] at h
        omega
      rw [m10_split_long]
      by_cases hl : line.length ≤ th
      · rw [if_pos hl]
        rw [List.flatten_append, wordChars_append, ih rest th hrest, wc_single,
          List.flatten_cons, wordChars_append]
      · rw [if_neg hl]
        split
        · rw [List.flatten_append, wordChars_append, ih rest th hrest, wc_single,
            List.flatten_cons, wordChars_append]
        · next pos hb =>
          have hbb := findLongLineBreak_bounds line th pos hb
          have hlf : (rstripWs (line.take pos)).length < line.length := by
            have h1 := rstripWs_length_le (line.take pos)
            have h2 : (line.take pos).length ≤ pos := by simp
            omega
          have hrt : (lstripWs (line.drop pos)).length < line.length := by
            have h1 := lstripWs_length_le (line.drop pos)
            have h2 : (line.drop pos).length = line.length - pos := by simp
            omega
          have hA : wordChars ((if (rstripWs (line.take pos)).length > th
              then m10_split_long [rstripWs (line.take pos)] th
              else [rstripWs (line.take pos)]).flatten) =
              wordChars (rstripWs (line.take pos)) := by
            by_cases hc : (rstripWs (line.take pos)).length > th
            · rw [if_pos hc, ih [rstripWs (line.take pos)] th
                (by rw [m10Measure_single]; omega), wc_single]
            · rw [if_neg hc, wc_single]
          have hB : wordChars ((if (lstripWs (line.drop pos)).length > th
              then m10_split_long [lstripWs (line.drop pos)] th
              else [lstripWs (line.drop pos)]).flatten) =
              wordChars (lstripWs (line.drop pos)) := by
            by_cases hc : (lstripWs (line.drop pos)).length > th
            · rw [if_pos hc, ih [lstripWs (line.drop pos)] th
                (by rw [m10Measure_single]; omega), wc_single]
            · rw [if_neg hc, wc_single]
          rw [List.flatten_append, List.flatten_append, wordChars_append, wordChars_append,
            hA, hB, ih rest th hrest, wordChars_rstripWs, wordChars_lstripWs,
            List.flatten_cons, wordChars_append]
          rw [← wordChars_take_drop]

theorem m11Match_spec (l : Line) (cg : Nat × Nat) (h : m11Match l = some cg) :
    ∃ j, j ≤ wsRunAt l (cg.1 + 1) ∧ cg.2 = cg.1 + 1 + j := by
  unfold m11Match at h
  obtain ⟨s, _, hs⟩ := List.exists_of_findSome?_eq_some h
  by_cases h1 : 1 ≤ s
  · rw [if_pos h1] at hs
    obtain ⟨c, _, hc⟩ := List.exists_of_findSome?_eq_some hs
    cases ht : m11Tail l c with
    | none => rw [ht] at hc; exact Option.noConfusion hc
    | some g2 =>
      rw [ht] at hc
      cases hc
      unfold m11Tail at ht
      by_cases h2 : (decide (1 ≤ wsRunAt l (c + 1)) && decide (c + 12 ≤ l.length)) = true
      · rw [if_pos h2] at ht
        cases ht
        exact ⟨_, Nat.min_le_left _ _, rfl⟩
      · rw [if_neg h2] at ht
        exact Option.noConfusion ht
  · rw [if_neg h1] at hs
    exact Option.noConfusion hs

theorem wc_m11Line (l : Line) : wordChars (m11Line l).flatten = wordChars l := by
  cases hm : m11Match l with
  | some cg =>
    simp only [m11Line, hm]
    obtain ⟨j, hj, hcg⟩ := m11Match_spec l cg hm
    rw [hcg]
    refine wc_split_pair l (cg.1 + 1) (cg.1 + 1 + j) _ _ (by omega) ?_ rfl rfl
    exact wordChars_ws_slice l (cg.1 + 1) j hj
  | none =>
    simp only [m11Line, hm]
    exact wc_single l

theorem wc_m12Line (l : Line) : wordChars (m12Line l).flatten = wordChars l := by
  cases hm : m12Match l with
  | some a =>
    simp only [m12Line, hm]
    by_cases hlen : 10 ≤ l.length - (a + wsRunAt l a)
    · rw [if_pos hlen]
      refine wc_split_pair l a (a + wsRunAt l a) _ _ (by omega) ?_ rfl rfl
      exact wordChars_ws_slice l a (wsRunAt l a) (Nat.le_refl _)
    · rw [if_neg hlen]
      exact wc_single l
  | none =>
    simp only [m12Line, hm]
    exact wc_single l

theorem wc_m13Line (l : Line) : wordChars (m13Line l).flatten = wordChars l := by
  cases hm : m13Match l with
  | some d =>
    simp only [m13Line, hm]
    refine wc_split_pair l (d + 11) (d + 11 + wsRunAt l (d + 11)) _ _ (by omega) ?_ rfl rfl
    exact wordChars_ws_slice l (d + 11) (wsRunAt l (d + 11)) (Nat.le_refl _)
  | none =>
    simp only [m13Line, hm]
    exact wc_single l

theorem wc_m14Line (l : Line) : wordChars (m14Line l).flatten = wordChars l := by
  by_cases h40 : l.length < 40
  · simp only [m14Line, if_pos h40]
    exact wc_single l
  · by_cases hop : (!(m14Opener (l.take 30))) = true
    · simp only [m14Line, if_neg h40, if_pos hop]
      exact wc_single l
    · cases hm : m14Search (l.drop 25) with
      | some q =>
        simp only [m14Line, if_neg h40, if_neg hop, hm]
        by_cases hcomma : containsSub [','] (pySlice l (25 + q - 5) (25 + q)) = true
        · rw [if_pos hcomma]
          exact wc_single l
        · rw [if_neg hcomma]
          by_cases hg : 20 ≤ (rstripWs (l.take (25 + q))).length ∧
              15 ≤ (l.drop (25 + q)).length
          · rw [if_pos hg]
            refine wc_split_pair l (25 + q) (25 + q) _ _ (Nat.le_refl _) ?_ ?_ rfl
            · rw [pySlice_self]
              rfl
            · rw [wordChars_rstripWs]
          · rw [if_neg hg]
            exact wc_single l
      | none =>
        simp only [m14Line, if_neg h40, if_neg hop, hm]
        exact wc_single l

theorem m15TryCopula_spec (l : Line) (s : Nat) (v : Line) (r : Nat × Nat × Nat)
    (h : m15TryCopula l s v = some r) : r.2.2 = r.2.1 + wsRunAt l r.2.1 := by
  unfold m15TryCopula at h
  by_cases h1 : (occursAt v l s && decide (1 ≤ wsRunAt l (s + v.length))) = true
  · rw [if_pos h1] at h
    by_cases h2 : (occursAt ("not".toList) l (s + v.length + wsRunAt l (s + v.length)) &&
        !(chSat l (s + v.length + wsRunAt l (s + v.length) + 3) isPyWord)) = true
    · rw [if_pos h2] at h
      exact Option.noConfusion h
    · rw [if_neg h2] at h
      by_cases h3 : ((2 ≤ wordRunAt l (s + v.length + wsRunAt l (s + v.length)) &&
          chAt l (s + v.length + wsRunAt l (s + v.length) +
            wordRunAt l (s + v.length + wsRunAt l (s + v.length)) - 1) 't') ||
         (3 ≤ wordRunAt l (s + v.length + wsRunAt l (s + v.length)) &&
          (occursAt ("ed".toList) l (s + v.length + wsRunAt l (s + v.length) +
             wordRunAt l (s + v.length + wsRunAt l (s + v.length)) - 2) ||
           occursAt ("en".toList) l (s + v.length + wsRunAt l (s + v.length) +
             wordRunAt l (s + v.length + wsRunAt l (s + v.length)) - 2) ||
           occursAt ("wn".toList) l (s + v.length + wsRunAt l (s + v.length) +
             wordRunAt l (s + v.length + wsRunAt l (s + v.length)) - 2)))) = true
      · rw [if_pos h3] at h
        by_cases h4 : (1 ≤ wsRunAt l (s + v.length + wsRunAt l (s + v.length) +
            wordRunAt l (s + v.length + wsRunAt l (s + v.length))))
        · rw [if_pos h4] at h
          cases hf : m15Preps.findSome? (fun prep =>
            if occursAt prep l (s + v.length + wsRunAt l (s + v.length) +
                wordRunAt l (s + v.length + wsRunAt l (s + v.length)) +
                wsRunAt l (s + v.length + wsRunAt l (s + v.length) +
                  wordRunAt l (s + v.length + wsRunAt l (s + v.length)))) &&
                decide (1 ≤ wsRunAt l ((s + v.length + wsRunAt l (s + v.length) +
                  wordRunAt l (s + v.length + wsRunAt l (s + v.length)) +
                  wsRunAt l (s + v.length + wsRunAt l (s + v.length) +
                    wordRunAt l (s + v.length + wsRunAt l (s + v.length)))) + prep.length)) &&
                decide ((s + v.length + wsRunAt l (s + v.length) +
                  wordRunAt l (s + v.length + wsRunAt l (s + v.length)) +
                  wsRunAt l (s + v.length + wsRunAt l (s + v.length) +
                    wordRunAt l (s + v.length + wsRunAt l (s + v.length)))) + prep.length + 2
                    ≤ l.length) then
              some (s + v.length + wsRunAt l (s + v.length) +
                wordRunAt l (s + v.length + wsRunAt l (s + v.length)) +
                wsRunAt l (s + v.length + wsRunAt l (s + v.length) +
                  wordRunAt l (s + v.length + wsRunAt l (s + v.length))))
            else none) with
          | some ps =>
            rw [hf] at h
            cases h
            obtain ⟨prep, _, hp⟩ := List.exists_of_findSome?_eq_some hf
            by_cases h5 : (occursAt prep l (s + v.length + wsRunAt l (s + v.length) +
                wordRunAt l (s + v.length + wsRunAt l (s + v.length)) +
                wsRunAt l (s + v.length + wsRunAt l (s + v.length) +
                  wordRunAt l (s + v.length + wsRunAt l (s + v.length)))) &&
                decide (1 ≤ wsRunAt l ((s + v.length + wsRunAt l (s + v.length) +
                  wordRunAt l (s + v.length + wsRunAt l (s + v.length)) +
                  wsRunAt l (s + v.length + wsRunAt l (s + v.length) +
                    wordRunAt l (s + v.length + wsRunAt l (s + v.length)))) + prep.length)) &&
                decide ((s + v.length + wsRunAt l (s + v.length) +
                  wordRunAt l (s + v.length + wsRunAt l (s + v.length)) +
                  wsRunAt l (s + v.length + wsRunAt l (s + v.length) +
                    wordRunAt l (s + v.length + wsRunAt l (s + v.length)))) + prep.length + 2
                    ≤ l.length)) = true
            · rw [if_pos h5] at hp
              cases hp
              rfl
            · rw [if_neg h5] at hp
              exact Option.noConfusion hp
          | none =>
            rw [hf] at h
            exact Option.noConfusion h
        · rw [if_neg h4] at h
          exact Option.noConfusion h
      · rw [if_neg h3] at h
        exact Option.noConfusion h
  · rw [if_neg h1] at h
    exact Option.noConfusion h

theorem m15Match_spec (l : Line) (r : Nat × Nat × Nat) (h : m15Match l = some r) :
    r.2.2 = r.2.1 + wsRunAt l r.2.1 := by
  unfold m15Match at h
  obtain ⟨s, _, hs⟩ := List.exists_of_findSome?_eq_some h
  by_cases h1 : 1 ≤ s
  · rw [if_pos h1] at hs
    obtain ⟨v, _, hv⟩ := List.exists_of_findSome?_eq_some hs
    exact m15TryCopula_spec l s v r hv
  · rw [if_neg h1] at hs
    exact Option.noConfusion hs

theorem wc_m15Line (l : Line) : wordChars (m15Line l).flatten = wordChars l := by
  by_cases hl : l.length < 50
  · simp only [m15Line, if_pos hl]
    exact wc_single l
  · cases hm : m15Match l with
    | some r =>
      simp only [m15Line, if_neg hl, hm]
      have hspec := m15Match_spec l r hm
      by_cases hg : (!(motionVerbs.contains (pySlice l r.1 r.2.1)) &&
          decide (18 ≤ r.2.1) && decide (15 ≤ l.length - r.2.2)) = true
      · rw [if_pos hg]
        rw [hspec]
        refine wc_split_pair l r.2.1 (r.2.1 + wsRunAt l r.2.1) _ _ (by omega) ?_ rfl rfl
        exact wordChars_ws_slice l r.2.1 (wsRunAt l r.2.1) (Nat.le_refl _)
      · rw [if_neg hg]
        exact wc_single l
    | none =>
      simp only [m15Line, if_neg hl, hm]
      exact wc_single l

theorem m16TryAt_slice (line : Line) (k : Nat) (cg : Nat × Nat)
    (h : m16TryAt line k = some cg) :
    occursAt ([','] : Line) line cg.1 = true ∧
      cg.2 = cg.1 + 1 + wsRunAt line (cg.1 + 1) := by
  unfold m16TryAt at h
  by_cases hb : (decide (k = 0) || !(chSat line (k - 1) isPyWord)) = true
  · rw [if_pos hb] at h
    obtain ⟨d1, _, hd1⟩ := List.exists_of_findSome?_eq_some h
    by_cases h1 : (occursAt d1 line k && chAt line (k + d1.length) ',') = true
    · rw [if_pos h1] at hd1
      by_cases h2 : (1 ≤ wsRunAt line (k + d1.length + 1))
      · rw [if_pos h2] at hd1
        cases hfind : deityTitles.find? (fun d2 =>
            occursAt d2 line (k + d1.length + 1 + wsRunAt line (k + d1.length + 1)) &&
            !(chSat line (k + d1.length + 1 + wsRunAt line (k + d1.length + 1) + d2.length)
              isPyWord)) with
        | some d2 =>
          rw [hfind] at hd1
          cases hd1
          exact ⟨((Bool.and_eq_true _ _).mp h1).2, rfl⟩
        | none =>
          rw [hfind] at hd1
          exact Option.noConfusion hd1
      · rw [if_neg h2] at hd1
        exact Option.noConfusion hd1
    · rw [if_neg h1] at hd1
      exact Option.noConfusion hd1
  · rw [if_neg hb] at h
    exact Option.noConfusion h

theorem m16Match_slice (line : Line) (cg : Nat × Nat) (h : m16Match line = some cg) :
    occursAt ([','] : Line) line cg.1 = true ∧
      cg.2 = cg.1 + 1 + wsRunAt line (cg.1 + 1) := by
  unfold m16Match at h
  obtain ⟨k, _, hk⟩ := List.exists_of_findSome?_eq_some h
  exact m16TryAt_slice line k cg hk

theorem wc_m16Loop_aux : ∀ (n : Nat) (cur : Line), cur.length ≤ n →
    wordChars (m16Loop cur).flatten = wordChars cur := by
  intro n
  induction n with
  | zero =>
    intro cur h
    rw [m16Loop]
    split
    · next cg hm =>
      have := m16Match_spec cur cg hm
      omega
    · exact wc_single cur
  | succ n ih =>
    intro cur h
    rw [m16Loop]
    split
    · next cg hm =>
      have hspec := m16Match_spec cur cg hm
      obtain ⟨hc, hg⟩ := m16Match_slice cur cg hm
      rw [List.flatten_cons, wordChars_append]
      have hrec : wordChars (m16Loop (cur.drop cg.2)).flatten = wordChars (cur.drop cg.2) := by
        apply ih
        have hd : (cur.drop cg.2).length = cur.length - cg.2 := by simp
        omega
      rw [hrec,
        wordChars_append_sep _ _ (show wordChars ([','] : Line) = [] from by decide)]
      have hmid := wordChars_sep_slice [','] cur cg.1 (wsRunAt cur (cg.1 + 1)) hc (by decide)
        (by simp)
      have hlen : cg.1 + ([','] : Line).length + wsRunAt cur (cg.1 + 1) =
          cg.1 + 1 + wsRunAt cur (cg.1 + 1) := by simp
      rw [hlen] at hmid
      rw [hg, ← wordChars_split cur cg.1 (cg.1 + 1 + wsRunAt cur (cg.1 + 1)) (by omega) hmid]
    · exact wc_single cur

theorem wc_m16Line (l : Line) : wordChars (m16Line l).flatten = wordChars l := by
  unfold m16Line
  by_cases hl : l.length < 30
  · rw [if_pos hl]
    exact wc_single l
  · rw [if_neg hl]
    exact wc_m16Loop_aux l.length l (Nat.le_refl _)

theorem wc_m0Go : ∀ (rest : List Line) (cur : Line),
    wordChars (m0Go cur rest).flatten = wordChars ((cur :: rest : List Line)).flatten := by
  intro rest
  induction rest with
  | nil => intro cur; rfl
  | cons next rs ih =>
    intro cur
    cases hm : m0Match cur with
    | some q =>
      simp only [m0Go, hm]
      have hocc : occursAt ("--".toList) cur q = true := by
        have hc := List.find?_some hm
        unfold m0CondAt at hc
        simp only [Bool.and_eq_true, decide_eq_true_eq] at hc
        exact hc.1.2
      have hmid := wordChars_sep_slice ("--".toList) cur q 0 hocc (by decide) (by omega)
      have hsplit : wordChars cur = wordChars (cur.take q) ++ wordChars (cur.drop (q + 2)) := by
        refine wordChars_split cur q (q + 2) (by omega) ?_
        have h2 : (("--".toList : Line)).length = 2 := by decide
        rw [h2] at hmid
        simpa using hmid
      simp only [List.flatten_cons, wordChars_append, ih, List.append_nil,
        show wordChars ("--".toList : Line) = [] from by decide,
        show wordChars ([' '] : Line) = [] from by decide]
      rw [hsplit]
      simp [List.append_assoc]
    | none =>
      simp only [m0Go, hm]
      rw [List.flatten_cons, wordChars_append, ih]
      simp [wordChars_append]

theorem wc_m0 (lines : List Line) :
    wordChars (m0_emdash_trailing lines).flatten = wordChars lines.flatten := by
  cases lines with
  | nil => rfl
  | cons l rest => exact wc_m0Go rest l

-- ============================================================
-- Claim C9: word-content preservation across every pass
-- ============================================================

/-- C9: every pass M0 through M16 preserves the concatenated sequence of
word characters (letters and digits) of its input lines: splitting may
move text across line boundaries, insert the kept `--`/space glue (M0),
or drop whitespace and the comma at a split point, but the word
characters, in order, are exactly those of the input. -/
theorem c9_word_preservation (lines : List Line) :
    wordChars (m0_emdash_trailing lines).flatten = wordChars lines.flatten ∧
    wordChars (m1_aictp lines).flatten = wordChars lines.flatten ∧
    wordChars (m2_behold_hinge lines).flatten = wordChars lines.flatten ∧
    wordChars (m3_yea_trailing lines).flatten = wordChars lines.flatten ∧
    wordChars (m4_insomuch lines).flatten = wordChars lines.flatten ∧
    wordChars (m5_vocative lines).flatten = wordChars lines.flatten ∧
    wordChars (m6_according_to lines).flatten = wordChars lines.flatten ∧
    wordChars (m7_speech_content lines).flatten = wordChars lines.flatten ∧
    wordChars (m8_and_pronoun lines).flatten = wordChars lines.flatten ∧
    wordChars (m9_subject_predicate lines).flatten = wordChars lines.flatten ∧
    wordChars (m10_split_long lines 70).flatten = wordChars lines.flatten ∧
    wordChars (m11_speech_frame lines).flatten = wordChars lines.flatten ∧
    wordChars (m12_in_gerund lines).flatten = wordChars lines.flatten ∧
    wordChars (m13_end_of_gerund lines).flatten = wordChars lines.flatten ∧
    wordChars (m14_inverted_conditional lines).flatten = wordChars lines.flatten ∧
    wordChars (m15_passive_prep lines).flatten = wordChars lines.flatten ∧
    wordChars (m16_deity_appositive lines).flatten = wordChars lines.flatten :=
  ⟨wc_m0 lines,
   wc_pass m1Line wc_m1Line lines,
   wc_pass m2Line wc_m2Line lines,
   wc_pass m3Line wc_m3Line lines,
   wc_pass m4Line wc_m4Line lines,
   wc_pass m5Line wc_m5Line lines,
   wc_pass m6Line wc_m6Line lines,
   wc_pass m7Line wc_m7Line lines,
   wc_pass m8Line wc_m8Line lines,
   wc_pass m9Line wc_m9Line lines,
   wc_m10_aux (m10Measure lines) lines 70 (Nat.le_refl _),
   wc_pass m11Line wc_m11Line lines,
   wc_pass m12Line wc_m12Line lines,
   wc_pass m13Line wc_m13Line lines,
   wc_pass m14Line wc_m14Line lines,
   wc_pass m15Line wc_m15Line lines,
   wc_pass m16Line wc_m16Line lines⟩

-- ============================================================
-- Claim C5: the file driver (process_file, senseline_reformat_v6.py:732-761)
-- ============================================================

/-- Python `s.split(sep)` for a nonempty separator `sep`: scan left to
right, cut at each leftmost non-overlapping occurrence of `sep`, keep
empty pieces. The fuel argument is initialised to `s.length`, which
bounds the number of steps since every step consumes at least one
character. -/
def pySplitAux (sep : Line) : Nat → Line → Line → List Line
  | 0, acc, s => [acc ++ s]
  | Nat.succ fuel, acc, s =>
    if !sep.isEmpty && sep.isPrefixOf s then
      acc :: pySplitAux sep fuel [] (s.drop sep.length)
    else
      match s with
      | [] => [acc]
      | c :: rest => pySplitAux sep fuel (acc ++ [c]) rest

def pySplit (sep s : Line) : List Line := pySplitAux sep s.length [] s

/-- `re.match(r'^\d+:\d+$', l)` as a Boolean: a maximal nonempty digit
run, a colon, and a second nonempty digit run reaching the end of the
line. -/
def isMarker (l : Line) : Bool :=
  decide (0 < (l.takeWhile Char.isDigit).length) &&
  occursAt [':'] l (l.takeWhile Char.isDigit).length &&
  decide (0 < ((l.drop ((l.takeWhile Char.isDigit).length + 1)).takeWhile Char.isDigit).length) &&
  decide (l.length = (l.takeWhile Char.isDigit).length + 1 +
    ((l.drop ((l.takeWhile Char.isDigit).length + 1)).takeWhile Char.isDigit).length)

/-- `block.split('\n')[0]`. -/
def blockFirst (block : Line) : Line := (pySplit ['\n'] block).headD []

/-- The verse marker of a block: `block.split('\n')[0].strip()` when it
matches `^\d+:\d+$`, following `process_file`. -/
def blockMarker (block : Line) : Option Line :=
  if isMarker (stripWs (blockFirst block)) then some (stripWs (blockFirst block)) else none

/-- The body of `process_file`'s per-block loop: detach a verse marker
when the first line (stripped) is one, run `process_verse` on the
remaining lines, and re-join with the marker on top. -/
def processBlock (block : Line) : Line :=
  if isMarker (stripWs (blockFirst block)) then
    stripWs (blockFirst block) ++ '\n' :: List.intercalate ['\n']
      (process_verse (pySplit ['\n'] block).tail)
  else
    List.intercalate ['\n'] (process_verse (pySplit ['\n'] block))

/-- `content.strip().split('\n\n')` of `process_file`. -/
def inputBlocks (content : Line) : List Line :=
  pySplit ('\n' :: ['\n']) (stripWs content)

/-- The `output_blocks` list built by `process_file`. -/
def outputBlocks (content : Line) : List Line :=
  (inputBlocks content).map processBlock

/-- The string `process_file` writes: `'\n\n'.join(output_blocks) + '\n'`. -/
def process_file_output (content : Line) : Line :=
  List.intercalate ('\n' :: ['\n']) (outputBlocks content) ++ ['\n']

/-- The sequence of verse-marker lines of a file: the markers at the
heads of its blocks, in order. -/
def markersOf (content : Line) : List Line :=
  (pySplit ('\n' :: ['\n']) (stripWs content)).filterMap blockMarker

theorem pySplit_head_not_mem (c : Char) : ∀ (fuel : Nat) (acc s : Line),
    s.length ≤ fuel → c ∉ acc → c ∉ (pySplitAux [c] fuel acc s).headD [] := by
  intro fuel
  induction fuel with
  | zero =>
    intro acc s hs hacc
    have h0 : s = [] := List.eq_nil_of_length_eq_zero (Nat.le_zero.mp hs)
    subst h0
    simpa [pySplitAux] using hacc
  | succ n ih =>
    intro acc s hs hacc
    by_cases hp : (!([c] : Line).isEmpty && ([c] : Line).isPrefixOf s) = true
    · simp only [pySplitAux, if_pos hp, List.headD_cons]
      exact hacc
    · cases s with
      | nil => simpa [pySplitAux, hp] using hacc
      | cons a rest =>
        have ha : a ≠ c := by
          intro h
          apply hp
          subst h
          simp [List.isPrefixOf]
        simp only [pySplitAux, if_neg hp]
        refine ih (acc ++ [a]) rest (by simp at hs; omega) ?_
        intro hmem
        rcases List.mem_append.mp hmem with h1 | h1
        · exact hacc h1
        · exact ha (List.mem_singleton.mp h1).symm

theorem pySplit_head_of_append (c : Char) : ∀ (m : Line) (fuel : Nat) (acc rest : Line),
    m.length + 1 ≤ fuel → c ∉ m →
    (pySplitAux [c] fuel acc (m ++ c :: rest)).headD [] = acc ++ m := by
  intro m
  induction m with
  | nil =>
    intro fuel acc rest hf _
    cases fuel with
    | zero => omega
    | succ n => simp [pySplitAux, List.isPrefixOf]
  | cons a m ih =>
    intro fuel acc rest hf hm
    cases fuel with
    | zero => simp at hf
    | succ n =>
      have ha : a ≠ c := fun h => hm (by simp [h])
      simp only [List.cons_append, pySplitAux]
      rw [if_neg (by simp [List.isPrefixOf]; exact fun h => ha h.symm)]
      show (pySplitAux [c] n (acc ++ [a]) (m ++ c :: rest)).headD [] = acc ++ a :: m
      rw [ih n (acc ++ [a]) rest (by simp at hf; omega)
        (fun h => hm (List.mem_cons_of_mem a h))]
      simp

theorem isDigit_not_space (ch : Char) (h : ch.isDigit = true) : isPySpace ch = false := by
  cases he : isPySpace ch
  · rfl
  · exfalso
    unfold isPySpace at he
    simp only [Bool.or_eq_true, beq_iff_eq] at he
    rcases he with ((((h1 | h1) | h1) | h1) | h1) | h1 <;> subst h1 <;>
      exact absurd h (by decide)

theorem lstripWs_fix (ch : Char) (l : Line) (h : isPySpace ch = false) :
    lstripWs (ch :: l) = ch :: l := by
  simp [lstripWs, List.dropWhile_cons, h]

theorem rstripWs_fix (l : Line) (ch : Char) (h : isPySpace ch = false) :
    rstripWs (l ++ [ch]) = l ++ [ch] := by
  simp [rstripWs, List.dropWhile_cons, h]

theorem mem_of_mem_stripWs (a : Char) (l : Line) (h : a ∈ stripWs l) : a ∈ l := by
  unfold stripWs lstripWs rstripWs at h
  have h1 := (List.dropWhile_sublist _).subset h
  rw [List.mem_reverse] at h1
  have h2 := (List.dropWhile_sublist _).subset h1
  rw [List.mem_reverse] at h2
  exact h2

theorem isMarker_strip_fix (m : Line) (h : isMarker m = true) : stripWs m = m := by
  unfold isMarker at h
  obtain ⟨⟨⟨h1, _⟩, h3⟩, h4⟩ :=
    (Bool.and_eq_true _ _).mp h |>.imp
      (fun hx => (Bool.and_eq_true _ _).mp hx |>.imp
        (fun hy => (Bool.and_eq_true _ _).mp hy) id) id
  rw [decide_eq_true_eq] at h1 h3 h4
  have hrs : rstripWs m = m := by
    have hd : (m.drop ((m.takeWhile Char.isDigit).length + 1)) =
        (m.drop ((m.takeWhile Char.isDigit).length + 1)).takeWhile Char.isDigit := by
      refine ((List.takeWhile_prefix _).eq_of_length_le ?_).symm
      simp
      omega
    have hne : (m.drop ((m.takeWhile Char.isDigit).length + 1)) ≠ [] := by
      intro hz
      rw [hz] at h3
      simp at h3
    have hall : ∀ a ∈ m.drop ((m.takeWhile Char.isDigit).length + 1),
        Char.isDigit a = true := by
      intro a ha
      rw [hd] at ha
      exact List.mem_takeWhile_imp ha
    have hlast := hall _ (List.getLast_mem hne)
    have hdec : m = (m.take ((m.takeWhile Char.isDigit).length + 1) ++
        (m.drop ((m.takeWhile Char.isDigit).length + 1)).dropLast) ++
        [(m.drop ((m.takeWhile Char.isDigit).length + 1)).getLast hne] := by
      rw [List.append_assoc, List.dropLast_append_getLast hne, List.take_append_drop]
    nth_rewrite 1 [hdec]
    rw [rstripWs_fix _ _ (isDigit_not_space _ hlast)]
    exact hdec.symm
  have hls : lstripWs m = m := by
    have hne0 : m ≠ [] := by
      intro hz
      rw [hz] at h1
      simp at h1
    obtain ⟨ch, m', hm0⟩ := List.exists_cons_of_ne_nil hne0
    have hch : Char.isDigit ch = true := by
      by_cases hd0 : Char.isDigit ch = true
      · exact hd0
      · rw [hm0, List.takeWhile_cons] at h1
        simp [hd0] at h1
    rw [hm0]
    exact lstripWs_fix ch m' (isDigit_not_space ch hch)
  unfold stripWs
  rw [hrs, hls]

theorem processBlock_marker (block m : Line) (h : blockMarker block = some m) :
    blockMarker (processBlock block) = some m := by
  unfold blockMarker at h
  by_cases ht : isMarker (stripWs (blockFirst block)) = true
  · rw [if_pos ht] at h
    have hm : m = stripWs (blockFirst block) := (Option.some.inj h).symm
    subst hm
    have hnl : '\n' ∉ stripWs (blockFirst block) := by
      intro hmem
      have h1 : '\n' ∈ blockFirst block := mem_of_mem_stripWs _ _ hmem
      have h2 : '\n' ∉ blockFirst block := by
        unfold blockFirst pySplit
        exact pySplit_head_not_mem '\n' block.length [] block (Nat.le_refl _) (by simp)
      exact h2 h1
    unfold processBlock
    rw [if_pos ht]
    have hhead : blockFirst (stripWs (blockFirst block) ++ '\n' ::
        List.intercalate ['\n'] (process_verse (pySplit ['\n'] block).tail)) =
        stripWs (blockFirst block) := by
      unfold blockFirst pySplit
      exact pySplit_head_of_append '\n' (stripWs (blockFirst block)) _ [] _
        (by unfold blockFirst pySplit; simp) hnl
    have hfix : stripWs (stripWs (blockFirst block)) = stripWs (blockFirst block) :=
      isMarker_strip_fix _ ht
    unfold blockMarker
    rw [hhead, hfix, if_pos ht]
  · rw [if_neg ht] at h
    exact Option.noConfusion h

/-- C5 (corrected): output blocks correspond one-to-one and in order to
input blocks, and every input block whose stripped first line is a verse
marker keeps exactly that marker as the stripped first line of its
output block. (The claimed equality of the marker sequences of input
and output fails: a markerless block can gain a marker-shaped first
line when a pass splits its first line.) -/
theorem c5_marker_preservation (content : Line) :
    (outputBlocks content).length = (inputBlocks content).length ∧
    ∀ i m, blockMarker ((inputBlocks content).getD i []) = some m →
      blockMarker ((outputBlocks content).getD i []) = some m := by
  constructor
  · simp [outputBlocks]
  · intro i m h
    by_cases hi : i < (inputBlocks content).length
    · have hg : (outputBlocks content).getD i [] =
          processBlock ((inputBlocks content).getD i []) := by
        unfold outputBlocks
        rw [List.getD_eq_getElem _ _ (by simpa using hi), List.getD_eq_getElem _ _ hi]
        exact List.getElem_map processBlock
      rw [hg]
      exact processBlock_marker _ _ h
    · rw [List.getD_eq_default _ _ (Nat.le_of_not_lt hi)] at h
      rw [show blockMarker ([] : Line) = none from rfl] at h
      exact Option.noConfusion h

def c5line : Line := "12345:6789 insomuch that we did go".toList


theorem c5pipeline :
    process_verse [("12345:6789 insomuch that we did go").toList] =
      [("12345:6789").toList, ("insomuch that we did go").toList] := by
  have h4 : m4_insomuch (m3_yea_trailing (m2_behold_hinge (m1_aictp
      (m0_emdash_trailing [("12345:6789 insomuch that we did go").toList])))) =
      [("12345:6789").toList, ("insomuch that we did go").toList] := by decide
  have h9 : m9_subject_predicate (m8_and_pronoun (m7_speech_content (m6_according_to
      (m5_vocative [("12345:6789").toList, ("insomuch that we did go").toList])))) =
      [("12345:6789").toList, ("insomuch that we did go").toList] := by decide
  have h10 : m10_split_long
      [("12345:6789").toList, ("insomuch that we did go").toList] 70 =
      [("12345:6789").toList, ("insomuch that we did go").toList] :=
    m10_short_all _ (by decide)
  have h16 : m16_deity_appositive (m15_passive_prep (m14_inverted_conditional
      (m13_end_of_gerund (m12_in_gerund (m11_speech_frame
      [("12345:6789").toList, ("insomuch that we did go").toList]))))) =
      [("12345:6789").toList, ("insomuch that we did go").toList] := by decide
  unfold process_verse
  rw [h4, h9, h10, h16]

theorem c5output : process_file_output c5line =
    ("12345:6789\ninsomuch that we did go\n").toList := by
  have hpb : processBlock c5line = ("12345:6789\ninsomuch that we did go").toList := by
    unfold processBlock
    rw [if_neg (by decide)]
    rw [show pySplit ['\n'] c5line = [c5line] from by decide]
    rw [show (([c5line] : List Line)) = [("12345:6789 insomuch that we did go").toList]
      from by decide]
    rw [c5pipeline]
    decide
  unfold process_file_output outputBlocks inputBlocks
  rw [show pySplit ('\n' :: ['\n']) (stripWs c5line) = [c5line] from by decide]
  rw [List.map_cons, List.map_nil, hpb]
  decide

/-- C5 counterexample: a file consisting of one markerless block whose
single line starts with a marker-shaped token. M4 splits the line before
"insomuch", so the output block's first line is `12345:6789`, a verse
marker the input never had: the marker sequences of input and output
differ. -/
theorem c5_counterexample :
    markersOf c5line = [] ∧
    markersOf (process_file_output c5line) = [("12345:6789".toList : Line)] := by
  refine ⟨by decide, ?_⟩
  rw [c5output]
  decide

theorem c5_marker_preservation_witness :
    blockMarker ((outputBlocks ("12:34 \nand he did go").toList).getD 0 []) =
      some (("12:34").toList) :=
  (c5_marker_preservation (("12:34 \nand he did go").toList)).2 0 (("12:34").toList)
    (by decide)
